import Mathlib

/-!
# Verification of the kvmemdb in-memory MVCC key-value store

Shallow embedding of the `visvasity/kvmemdb` repository (Go) into Lean 4:

* `mvcc.Value` (value.go) and `mvcc.MultiValue` (mvalue.go) — versioned
  values and per-key version histories, including the binary-search `Fetch`,
  `Append` and `Compact`.
* `Transaction` (transaction file), `Snapshot` (snapshot file), `Database`
  (db file) and the commit protocol (commit.go).

Modelling conventions:

* Go `int64` versions are modelled as `Int`; the source's `math.MaxInt64`
  is the explicit constant `maxInt64`.  Claims that depend on the machine
  bound take hypotheses bounding versions by `maxInt64`.
* Go maps (`tx.reads`, `tx.writes`, `db.kvs`, `db.concurrentMap`) are
  modelled as association lists with distinct keys, written with
  `mapInsert`/`mapErase` (Go map assignment/delete).  Go's map iteration
  order is unspecified; the model fixes insertion order.  No theorem below
  depends on a particular iteration order being the Go order.
* Go pointer identity of `*Transaction`/`*Snapshot` objects matters (the
  commit protocol observes peers' `committed` flags through shared
  pointers), so the model keeps a heap: `Database.txs` / `Database.snaps`
  hold every transaction/snapshot record ever created, addressed by index;
  `liveTxes`, `liveSnaps` and `concurrentMap` store indices.
  A nil `tx.db` / `s.db` back-pointer is modelled by the `dbAttached`
  flag; dereferencing it while detached is the `fatalNil`/`crashed`
  outcome (a Go nil-pointer panic).
* Fallible operations return explicit result types (`GetRes`, `SetRes`,
  `CommitErr`); Go `panic` sites that the database itself can never reach
  (non-positive or non-increasing versions in value.go/mvalue.go) are noted
  in comments at the corresponding definitions.
-/

namespace Kvmemdb

/-- `math.MaxInt64`, used by commit.go's `mv.Fetch(math.MaxInt64)`. -/
def maxInt64 : Int := 9223372036854775807

/-! ## mvcc.Value (value.go)

The Go struct stores `version int64` and `data string`; a deleted value is
encoded by negating the stored version (`Delete` / `IsDeleted` /
`Version`). -/

structure Value where
  version : Int
  data : String
deriving DecidableEq, Repr

instance : Inhabited Value := ⟨⟨0, ""⟩⟩

/-- value.go `IsDeleted`: the stored version is negative. -/
def Value.IsDeleted (v : Value) : Bool := v.version < 0

/-- value.go `Version`: absolute value of the stored version. -/
def Value.Version (v : Value) : Int :=
  if v.IsDeleted then -v.version else v.version

/-- value.go `Data`. -/
def Value.Data (v : Value) : String := v.data

/-- value.go `NewValue` (the source panics on `ver <= 0`; the database only
calls it with `maxCommitVersion + 1 > 0`). -/
def NewValue (ver : Int) : Value := { version := ver, data := "" }

/-- value.go `SetData`: undeletes a tombstone and stores the payload. -/
def Value.SetData (v : Value) (data : String) : Value :=
  { version := if v.IsDeleted then -v.version else v.version, data := data }

/-- value.go `Delete`: clears the payload and negates the stored version. -/
def Value.Delete (v : Value) : Value :=
  if v.version > 0 then { version := -v.version, data := "" } else v

/-! ## mvcc.MultiValue (mvalue.go) -/

structure MultiValue where
  values : List Value
deriving DecidableEq, Repr

instance : Inhabited MultiValue := ⟨⟨[]⟩⟩

/-- mvalue.go `NewMultiValue`. -/
def NewMultiValue (v : Value) : MultiValue := { values := [v] }

/-- mvalue.go `findValue`: three-way comparison of a value's version against
the searched version. -/
def findValue (v : Value) (version : Int) : Int :=
  if v.Version = version then 0
  else if v.Version < version then -1
  else 1

/-- The loop of Go's `slices.BinarySearchFunc` (leftmost index at which the
comparison is nonnegative), specialised to `findValue`.  `i`/`j` are the
`i, j := 0, n` bounds of the Go loop; the midpoint is `(i+j)/2`.  The first
argument is fuel bounding the number of iterations: every step shrinks the
gap `j - i` by at least one, so any fuel of at least `j - i` (the caller
passes the list length) computes the loop's exact result, and with the gap
closed the fuel-0 case is the loop's exit. -/
def bsearchLoop (vals : List Value) (version : Int) : Nat → Nat → Nat → Nat
  | 0, i, _ => i
  | fuel + 1, i, j =>
    if i < j then
      let m := (i + j) / 2
      if findValue (vals.getD m default) version < 0 then
        bsearchLoop vals version fuel (m + 1) j
      else
        bsearchLoop vals version fuel i m
    else i

/-- `slices.BinarySearchFunc(values, version, findValue)`: the insertion
index together with the exact-match flag. -/
def binarySearchFunc (vals : List Value) (version : Int) : Nat × Bool :=
  let i := bsearchLoop vals version vals.length 0 vals.length
  (i, decide (i < vals.length) && decide (findValue (vals.getD i default) version = 0))

/-- mvalue.go `Fetch`: the value at the given version or the closest lower
version; `none` when every entry is newer. -/
def MultiValue.Fetch (mv : MultiValue) (version : Int) : Option Value :=
  let p := binarySearchFunc mv.values version
  if p.2 then
    some (mv.values.getD p.1 default)
  else
    -- Go: closest := index - 1; if closest >= 0 && closest < len(mv.values)
    if 1 ≤ p.1 ∧ p.1 - 1 < mv.values.length then
      some (mv.values.getD (p.1 - 1) default)
    else
      none

/-- mvalue.go `Append` (the source panics when the input is unsorted or the
new version does not exceed the last one; the database only appends
`maxCommitVersion + 1`, which exceeds every stored version). -/
def Append (mv : Option MultiValue) (v : Value) : MultiValue :=
  match mv with
  | none => { values := [v] }
  | some mv =>
    if mv.values.length = 0 then { values := [v] }
    else { values := mv.values ++ [v] }

/-- mvalue.go `Compact`: drops all entries strictly older than the entry
found for `minVersion`; `none` signals that the whole history may be
removed. -/
def Compact (mv : Option MultiValue) (minVersion : Int) : Option MultiValue :=
  match mv with
  | none => none
  | some mv =>
    if mv.values.length = 0 then none
    else if mv.values.length = 1 then
      let v := mv.values.getD 0 default
      if v.IsDeleted && decide (v.Version < minVersion) then none else some mv
    else
      let p := binarySearchFunc mv.values minVersion
      -- Go: if !ok { index = index - 1 }; if index < 0 { return mv }
      if !p.2 && p.1 = 0 then some mv
      else
        let idx := if p.2 then p.1 else p.1 - 1
        let pivot := (mv.values.getD idx default).Version
        let newvs := mv.values.filter (fun v => !decide (v.Version < pivot))
        if newvs.length = mv.values.length then some mv
        else some { values := newvs }

/-! ## Association-list helpers (Go map assignment and delete) -/

/-- Go map assignment `m[k] = v`: replace the binding if present, else add
it. -/
def mapInsert {κ α : Type} [BEq κ] (m : List (κ × α)) (k : κ) (v : α) :
    List (κ × α) :=
  match m with
  | [] => [(k, v)]
  | e :: rest => if e.1 == k then (k, v) :: rest else e :: mapInsert rest k v

/-- Go map `delete(m, k)`. -/
def mapErase {κ α : Type} [BEq κ] (m : List (κ × α)) (k : κ) :
    List (κ × α) :=
  m.filter (fun e => !(e.1 == k))

/-! ## Transaction, Snapshot and Database state

`TxRec` is the heap record of one `Transaction` object; `SnapRec` of one
`Snapshot`.  `dbAttached` models the `db` back-pointer being non-nil. -/

structure TxRec where
  dbAttached : Bool
  snapshotVersion : Int
  committed : Bool
  /-- `reads map[string]*mvcc.Value` -/
  reads : List (String × Value)
  /-- `writes map[string]*string`; `none` is the nil pointer (a buffered
  delete intent). -/
  writes : List (String × Option String)
deriving DecidableEq, Repr

instance : Inhabited TxRec :=
  ⟨⟨false, 0, false, [], []⟩⟩

structure SnapRec where
  dbAttached : Bool
  snapshotVersion : Int
deriving DecidableEq, Repr

instance : Inhabited SnapRec := ⟨⟨false, 0⟩⟩

structure Database where
  liveTxes : List Nat
  liveSnaps : List Nat
  concurrentMap : List (Nat × List Nat)
  maxCommitVersion : Int
  kvs : List (String × MultiValue)
  /-- Heap of every transaction ever created; an id is an index here. -/
  txs : List TxRec
  /-- Heap of every snapshot ever created. -/
  snaps : List SnapRec
deriving DecidableEq, Repr

/-- The transaction record behind id `tid`. -/
def Database.getTx (db : Database) (tid : Nat) : TxRec :=
  db.txs.getD tid default

/-- The snapshot record behind id `sid`. -/
def Database.getSnap (db : Database) (sid : Nat) : SnapRec :=
  db.snaps.getD sid default

/-- Update the transaction record at `tid`. -/
def Database.setTx (db : Database) (tid : Nat) (t : TxRec) : Database :=
  { db with txs := db.txs.set tid t }

/-- db file `New`: an empty in-memory database. -/
def New : Database :=
  { liveTxes := [], liveSnaps := [], concurrentMap := [],
    maxCommitVersion := 0, kvs := [], txs := [], snaps := [] }

/-- db file `minVersionLocked`: the smallest snapshot version among live
transactions, their concurrent peers, and live snapshots. -/
def Database.minVersionLocked (db : Database) : Int :=
  let v := db.liveTxes.foldl
    (fun acc tid =>
      let acc := min acc (db.getTx tid).snapshotVersion
      ((db.concurrentMap.lookup tid).getD []).foldl
        (fun a cid => min a (db.getTx cid).snapshotVersion) acc)
    maxInt64
  db.liveSnaps.foldl (fun acc sid => min acc (db.getSnap sid).snapshotVersion) v

/-- db file `NewSnapshot`.  Note: the source constructs the `Snapshot` but
never appends it to `liveSnaps` (only `closeSnapshot` ever touches
`liveSnaps`); the model reproduces that faithfully.  The heap `snaps`
entry models the Go object itself. -/
def Database.NewSnapshot (db : Database) : Database × Nat :=
  let sid := db.snaps.length
  ({ db with snaps :=
      db.snaps ++ [{ dbAttached := true, snapshotVersion := db.maxCommitVersion }] },
   sid)

/-- db file `closeSnapshot`: remove from `liveSnaps`, nil the back-pointer. -/
def Database.closeSnapshot (db : Database) (sid : Nat) : Database :=
  { db with
    liveSnaps := db.liveSnaps.filter (fun v => !(v == sid)),
    snaps := db.snaps.set sid { db.getSnap sid with dbAttached := false } }

/-- db file `NewTransaction`: capture the snapshot version, record the
concurrency relation, and register the transaction as live. -/
def Database.NewTransaction (db : Database) : Database × Nat :=
  let tid := db.txs.length
  let t : TxRec :=
    { dbAttached := true, snapshotVersion := db.maxCommitVersion,
      committed := false, reads := [], writes := [] }
  -- d.concurrentMap[t] = slices.Clone(d.liveTxes)
  let cm := mapInsert db.concurrentMap tid db.liveTxes
  -- for _, tx := range d.liveTxes { d.concurrentMap[tx] = append(..., t) }
  let cm := db.liveTxes.foldl
    (fun m utid => mapInsert m utid (((m.lookup utid).getD []) ++ [tid])) cm
  ({ db with txs := db.txs ++ [t], concurrentMap := cm,
             liveTxes := db.liveTxes ++ [tid] }, tid)

/-- db file `closeTransaction`: drop from `liveTxes` and `concurrentMap`
(peers keep their reference to `tid`), nil the back-pointer. -/
def Database.closeTransaction (db : Database) (tid : Nat) : Database :=
  { db with
    liveTxes := db.liveTxes.filter (fun v => !(v == tid)),
    concurrentMap := mapErase db.concurrentMap tid,
    txs := db.txs.set tid { db.getTx tid with dbAttached := false } }

/-! ## The commit protocol (commit.go) -/

/-- The errors `commit` and the Transaction entry points can return. -/
inductive CommitErr where
  /-- `os.ErrInvalid` wrappers: closed or already-committed transaction. -/
  | invalid
  /-- "ssi: keys %v read were updated by a committed tx". -/
  | ssiReadsUpdated (keys : List String)
  /-- "ssi: keys %v written were read by a committed tx". -/
  | ssiWritesRead (keys : List String)
  /-- "ww-conflict: key %v is deleted by another tx". -/
  | wwDeleted (key : String)
  /-- "ww-conflict: key %v is also created by another tx". -/
  | wwCreated (key : String)
  /-- "ww-conflict: key %v is updated after this tx has begun". -/
  | wwUpdated (key : String)
deriving DecidableEq, Repr

/-- Whether an error is one of the Step-3 write-write conflict errors. -/
def CommitErr.isWW : CommitErr → Bool
  | .wwDeleted _ | .wwCreated _ | .wwUpdated _ => true
  | _ => false

/-- Whether an error is one of the Step-2 rw-dependency (SSI) errors. -/
def CommitErr.isSSI : CommitErr → Bool
  | .ssiReadsUpdated _ | .ssiWritesRead _ => true
  | _ => false

/-- commit.go `overlappingKeys`: keys present in both maps (in the
iteration order of the `reads` list). -/
def overlappingKeys (reads : List (String × Value))
    (writes : List (String × Option String)) : List String :=
  (reads.filter (fun e => (writes.lookup e.1).isSome)).map (·.1)

/-- The Step-2 SSI loop of commit.go over `db.concurrentMap[tx]`
(`v := db.getTx p` is the peer the loop variable points at). -/
def ssiCheck (db : Database) (tx : TxRec) : List Nat → Option CommitErr
  | [] => none
  | p :: rest =>
    if !(db.getTx p).committed then ssiCheck db tx rest
    else if (db.getTx p).writes.length = 0 then ssiCheck db tx rest
    else if (overlappingKeys tx.reads (db.getTx p).writes).length > 0 then
      some (.ssiReadsUpdated (overlappingKeys tx.reads (db.getTx p).writes))
    else if (overlappingKeys (db.getTx p).reads tx.writes).length > 0 then
      some (.ssiWritesRead (overlappingKeys (db.getTx p).reads tx.writes))
    else ssiCheck db tx rest

/-- The Step-3 write-write conflict loop of commit.go over `tx.writes`. -/
def wwCheck (kvs : List (String × MultiValue)) (sv : Int) :
    List (String × Option String) → Option CommitErr
  | [] => none
  | (key, _) :: rest =>
    match kvs.lookup key with
    | none => wwCheck kvs sv rest
    | some mv =>
      match mv.Fetch maxInt64, mv.Fetch sv with
      | none, none => wwCheck kvs sv rest
      | none, some _ => some (.wwDeleted key)
      | some _, none => some (.wwCreated key)
      | some current, some initial =>
        if current.Version ≠ initial.Version then some (.wwUpdated key)
        else wwCheck kvs sv rest

/-- The versioned value commit.go constructs for one buffered write:
`NewValue(newCommitVersion)` then `Delete()` or `SetData(*value)`. -/
def writeValue (newVersion : Int) : Option String → Value
  | none => (NewValue newVersion).Delete
  | some s => (NewValue newVersion).SetData s

/-- The Step-4 apply loop of commit.go: append (or create) and compact each
written key's history. -/
def applyWrites (kvs : List (String × MultiValue))
    (newVersion minVersion : Int) :
    List (String × Option String) → List (String × MultiValue)
  | [] => kvs
  | (key, value) :: rest =>
    let v := writeValue newVersion value
    let kvs' :=
      match kvs.lookup key with
      | none => mapInsert kvs key (NewMultiValue v)
      | some mv =>
        match Compact (some (Append (some mv) v)) minVersion with
        | none => mapErase kvs key
        | some nmv => mapInsert kvs key nmv
    applyWrites kvs' newVersion minVersion rest

/-- commit.go `commit`: validity checks, read-only fast path, SSI check,
ww check, then apply and publish.  Returns the updated database and the
error (`none` on success).  The source's `tx.db != db` check is
unrepresentable in this single-database model. -/
def commit (db : Database) (tid : Nat) : Database × Option CommitErr :=
  let tx := db.getTx tid
  if !tx.dbAttached then (db, some .invalid)
  else if tx.committed then (db, some .invalid)
  else if tx.writes.length = 0 then
    (db.setTx tid { tx with committed := true }, none)
  else
    match ssiCheck db tx ((db.concurrentMap.lookup tid).getD []) with
    | some e => (db, some e)
    | none =>
      match wwCheck db.kvs tx.snapshotVersion tx.writes with
      | some e => (db, some e)
      | none =>
        let minVersion := db.minVersionLocked
        let newCommitVersion := db.maxCommitVersion + 1
        let kvs' := applyWrites db.kvs newCommitVersion minVersion tx.writes
        ({ db with kvs := kvs', maxCommitVersion := newCommitVersion,
                   txs := db.txs.set tid { tx with committed := true } },
         none)

/-! ## Transaction entry points (transaction file) -/

/-- Results of a point read. -/
inductive GetRes where
  /-- A payload reader over this data. -/
  | ok (data : String)
  /-- `os.ErrInvalid`. -/
  | errInvalid
  /-- `os.ErrNotExist` (possibly wrapped). -/
  | errNotExist
  /-- Nil-pointer dereference of the `db` back-pointer of a closed
  handle (a Go runtime panic). -/
  | fatalNil
deriving DecidableEq, Repr

/-- Results of `Set` / `Delete`. -/
inductive SetRes where
  | ok
  /-- `os.ErrInvalid`. -/
  | errInvalid
  /-- The error returned by `io.ReadAll(value)`. -/
  | ioErr (msg : String)
deriving DecidableEq, Repr

/-- A payload source (`io.Reader`): `none` is a nil reader; otherwise the
outcome of `io.ReadAll` on it — `.error` an I/O failure, `.ok` the full
contents. -/
abbrev PayloadSrc : Type := Option (Except String String)

/-- transaction file `Set`: validate, drain the payload source, buffer the
payload.  The write buffer changes only on success. -/
def Transaction.Set (db : Database) (tid : Nat) (key : String)
    (value : PayloadSrc) : Database × SetRes :=
  -- Go: if len(key) == 0 || value == nil { return os.ErrInvalid }
  if key.length = 0 then (db, .errInvalid)
  else
    match value with
    | none => (db, .errInvalid)
    | some (.error e) => (db, .ioErr e)
    | some (.ok data) =>
      let tx := db.getTx tid
      (db.setTx tid { tx with writes := mapInsert tx.writes key (some data) },
       .ok)

/-- transaction file `Delete`: buffer a tombstone intent (never an error
for a present-or-absent key). -/
def Transaction.Delete (db : Database) (tid : Nat) (key : String) :
    Database × SetRes :=
  if key.length = 0 then (db, .errInvalid)
  else
    let tx := db.getTx tid
    (db.setTx tid { tx with writes := mapInsert tx.writes key none }, .ok)

/-- transaction file `Get`: own writes, then the reads cache, then the
database history at the snapshot version (caching the observed value). -/
def Transaction.Get (db : Database) (tid : Nat) (key : String) :
    Database × GetRes :=
  let tx := db.getTx tid
  if key.length = 0 then (db, .errInvalid)
  else
    match tx.writes.lookup key with
    | some none => (db, .errNotExist)
    | some (some v) => (db, .ok v)
    | none =>
      match tx.reads.lookup key with
      | some v => (db, .ok v.Data)
      | none =>
        if !tx.dbAttached then (db, .fatalNil)  -- t.db.kvs on a nil t.db
        else
          match db.kvs.lookup key with
          | some mv =>
            match mv.Fetch tx.snapshotVersion with
            | some v =>
              if v.IsDeleted then (db, .errNotExist)
              else
                (db.setTx tid { tx with reads := mapInsert tx.reads key v },
                 .ok v.Data)
            | none => (db, .errNotExist)
          | none => (db, .errNotExist)

/-- transaction file `Commit`: reject a closed handle, then run the commit
protocol and close the transaction in all cases (the deferred
`closeTransaction`). -/
def Transaction.Commit (db : Database) (tid : Nat) :
    Database × Option CommitErr :=
  if !(db.getTx tid).dbAttached then (db, some .invalid)
  else
    let r := commit db tid
    (r.1.closeTransaction tid, r.2)

/-- transaction file `Rollback`: reject a closed handle, else just close. -/
def Transaction.Rollback (db : Database) (tid : Nat) :
    Database × Option CommitErr :=
  if !(db.getTx tid).dbAttached then (db, some .invalid)
  else (db.closeTransaction tid, none)

/-- The `[begin, end)` deletion predicate shared by the `keys` helpers
(`slices.DeleteFunc`): `true` means the key is dropped. -/
def rangeDrop (b e k : String) : Bool :=
  if b = "" ∧ e = "" then false
  else if b ≠ "" ∧ e = "" then k < b
  else if b = "" ∧ e ≠ "" then e ≤ k
  else k < b || e ≤ k

/-- Insert `k` at the end unless already present (Go map-set insertion,
modelled in insertion order). -/
def dedupAppend (ks : List String) (k : String) : List String :=
  if ks.contains k then ks else ks ++ [k]

/-- transaction file `keys`: the union of read keys, written keys and
database keys, range-filtered; `none` when the handle is closed (the
source dereferences the nil `t.db`). -/
def Transaction.keys (db : Database) (tid : Nat) (b e : String) :
    Option (List String) :=
  let tx := db.getTx tid
  if !tx.dbAttached then none
  else
    let ks := (tx.reads.map (·.1)).foldl dedupAppend []
    let ks := (tx.writes.map (·.1)).foldl dedupAppend ks
    let ks := (db.kvs.map (·.1)).foldl dedupAppend ks
    some (ks.filter (fun k => !rangeDrop b e k))

/-- Outcome of consuming a full `Scan` sequence: the yielded pairs and the
final contents of the caller's error slot, or a crash. -/
inductive ScanOut where
  | finished (pairs : List (String × String)) (errSlot : Option GetRes)
  | crashed
deriving DecidableEq, Repr

/-- The yield loop of transaction `Scan`: `os.ErrNotExist` from `Get` is
filtered silently (`continue`); any other error fills the slot and stops. -/
def Transaction.scanLoop (db : Database) (tid : Nat)
    (acc : List (String × String)) :
    List String → Database × ScanOut
  | [] => (db, .finished acc.reverse none)
  | k :: rest =>
    let r := Transaction.Get db tid k
    match r.2 with
    | .ok v => Transaction.scanLoop r.1 tid ((k, v) :: acc) rest
    | .errNotExist => Transaction.scanLoop r.1 tid acc rest
    | .errInvalid => (r.1, .finished acc.reverse (some .errInvalid))
    | .fatalNil => (r.1, .crashed)

/-- transaction file `Scan` (the caller consumes the whole sequence and
then reads the error slot). -/
def Transaction.Scan (db : Database) (tid : Nat) : Database × ScanOut :=
  match Transaction.keys db tid "" "" with
  | none => (db, .crashed)
  | some ks => Transaction.scanLoop db tid [] ks

/-! ## Snapshot entry points (snapshot file) -/

/-- snapshot file `Get`: fetch at the snapshot version; tombstones and
missing entries are `os.ErrNotExist`. -/
def Snapshot.Get (db : Database) (sid : Nat) (key : String) : GetRes :=
  let s := db.getSnap sid
  if key.length = 0 then .errInvalid
  else if !s.dbAttached then .fatalNil  -- s.db.kvs on a nil s.db
  else
    match db.kvs.lookup key with
    | some mv =>
      match mv.Fetch s.snapshotVersion with
      | some v => if v.IsDeleted then .errNotExist else .ok v.Data
      | none => .errNotExist
    | none => .errNotExist

/-- snapshot file `keys`. -/
def Snapshot.keys (db : Database) (b e : String) : List String :=
  let ks := (db.kvs.map (·.1)).foldl dedupAppend []
  ks.filter (fun k => !rangeDrop b e k)

/-- The yield loop of snapshot `Scan`.  Unlike the transaction loop, ANY
`Get` error — including `os.ErrNotExist` for a key absent or tombstoned at
the snapshot version — is written to the error slot and stops the
sequence (the source has no `errors.Is(err, os.ErrNotExist)` filter
here). -/
def Snapshot.scanLoop (db : Database) (sid : Nat)
    (acc : List (String × String)) :
    List String → ScanOut
  | [] => .finished acc.reverse none
  | k :: rest =>
    match Snapshot.Get db sid k with
    | .ok v => Snapshot.scanLoop db sid ((k, v) :: acc) rest
    | .errNotExist => .finished acc.reverse (some .errNotExist)
    | .errInvalid => .finished acc.reverse (some .errInvalid)
    | .fatalNil => .crashed

/-- snapshot file `Scan`. -/
def Snapshot.Scan (db : Database) (sid : Nat) : ScanOut :=
  Snapshot.scanLoop db sid [] (Snapshot.keys db "" "")

/-! ## Specification-side definitions

`specFetch` renders the spec's description of `Fetch` (§4.2: "the
Versioned Value with the largest `version ≤ v`"); the theorems below
compare the source's binary-search `Fetch` against it. -/

/-- The entry of a history with the largest version at most `version`
(the last one, the history being sorted ascending). -/
def specFetch (vals : List Value) (version : Int) : Option Value :=
  (vals.filter (fun v => decide (v.Version ≤ version))).getLast?

/-- The data-model invariant of a Version History: versions strictly
ascending (§3 of the spec; `Append` enforces it in the source). -/
def ValuesSorted (l : List Value) : Prop :=
  l.Pairwise (fun a b => a.Version < b.Version)

instance (l : List Value) : Decidable (ValuesSorted l) :=
  inferInstanceAs (Decidable (l.Pairwise _))

/-! ## Correctness of the binary search and `Fetch` -/

theorem findValue_neg_iff (v : Value) (ver : Int) :
    findValue v ver < 0 ↔ v.Version < ver := by
  unfold findValue
  split
  · omega
  · split <;> omega

theorem findValue_zero_iff (v : Value) (ver : Int) :
    findValue v ver = 0 ↔ v.Version = ver := by
  unfold findValue
  split
  · simp_all
  · split <;> simp_all

theorem valuesSorted_getD_lt (l : List Value) (hs : ValuesSorted l)
    (i j : Nat) (hij : i < j) (hj : j < l.length) :
    (l.getD i default).Version < (l.getD j default).Version := by
  have hi : i < l.length := lt_trans hij hj
  rw [List.getD_eq_get _ _ hi, List.getD_eq_get _ _ hj]
  exact (List.pairwise_iff_get.mp hs) ⟨i, hi⟩ ⟨j, hj⟩ hij

theorem valuesSorted_getD_le (l : List Value) (hs : ValuesSorted l)
    (i j : Nat) (hij : i ≤ j) (hj : j < l.length) :
    (l.getD i default).Version ≤ (l.getD j default).Version := by
  rcases Nat.lt_or_ge i j with h | h
  · exact le_of_lt (valuesSorted_getD_lt l hs i j h hj)
  · have : i = j := le_antisymm hij h
    subst this
    exact le_refl _

/-- Loop invariant of Go's binary search: run with enough fuel, the result
separates versions below `version` from versions at least `version`. -/
theorem bsearchLoop_char (vals : List Value) (version : Int)
    (hs : ValuesSorted vals) :
    ∀ n i j, j - i ≤ n → i ≤ j → j ≤ vals.length →
    (∀ k, k < i → (vals.getD k default).Version < version) →
    (∀ k, j ≤ k → k < vals.length → version ≤ (vals.getD k default).Version) →
    i ≤ bsearchLoop vals version n i j ∧ bsearchLoop vals version n i j ≤ j ∧
    (∀ k, k < bsearchLoop vals version n i j →
      (vals.getD k default).Version < version) ∧
    (∀ k, bsearchLoop vals version n i j ≤ k → k < vals.length →
      version ≤ (vals.getD k default).Version) := by
  intro n
  induction n with
  | zero =>
    intro i j hn hij hjlen hlo hhi
    have heq : i = j := by omega
    subst heq
    exact ⟨le_refl _, le_refl _, hlo, hhi⟩
  | succ n ih =>
    intro i j hn hij hjlen hlo hhi
    by_cases hij2 : i < j
    · rw [bsearchLoop, if_pos hij2]
      have hm1 : i ≤ (i + j) / 2 := by omega
      have hm2 : (i + j) / 2 < j := by omega
      by_cases hf : findValue (vals.getD ((i + j) / 2) default) version < 0
      · simp only [hf, if_true]
        have hmlt : (vals.getD ((i + j) / 2) default).Version < version :=
          (findValue_neg_iff _ _).mp hf
        refine (ih ((i + j) / 2 + 1) j (by omega) (by omega) hjlen ?_ hhi).imp
          (fun h => by omega) (fun h => h)
        intro k hk
        rcases Nat.lt_or_ge k i with hki | hki
        · exact hlo k hki
        · calc (vals.getD k default).Version
              ≤ (vals.getD ((i + j) / 2) default).Version :=
                valuesSorted_getD_le vals hs k _ (by omega) (by omega)
            _ < version := hmlt
      · simp only [hf, if_false]
        have hmge : version ≤ (vals.getD ((i + j) / 2) default).Version := by
          rcases (lt_trichotomy (vals.getD ((i + j) / 2) default).Version version)
            with h | h | h
          · exact absurd ((findValue_neg_iff _ _).mpr h) hf
          · exact le_of_eq h.symm
          · exact le_of_lt h
        refine (ih i ((i + j) / 2) (by omega) (by omega) (by omega) hlo ?_).imp
          (fun h => h) (fun h => ⟨by omega, h.2⟩)
        intro k hk hklen
        calc version ≤ (vals.getD ((i + j) / 2) default).Version := hmge
          _ ≤ (vals.getD k default).Version :=
            valuesSorted_getD_le vals hs _ k hk hklen
    · rw [bsearchLoop, if_neg hij2]
      have heq : i = j := by omega
      subst heq
      exact ⟨le_refl _, le_refl _, hlo, hhi⟩

/-- Characterisation of `binarySearchFunc` on a sorted history. -/
theorem binarySearchFunc_char (vals : List Value) (version : Int)
    (hs : ValuesSorted vals) :
    (binarySearchFunc vals version).1 ≤ vals.length ∧
    (∀ k, k < (binarySearchFunc vals version).1 →
      (vals.getD k default).Version < version) ∧
    (∀ k, (binarySearchFunc vals version).1 ≤ k → k < vals.length →
      version ≤ (vals.getD k default).Version) ∧
    ((binarySearchFunc vals version).2 = true ↔
      (binarySearchFunc vals version).1 < vals.length ∧
      (vals.getD (binarySearchFunc vals version).1 default).Version = version) := by
  have h := bsearchLoop_char vals version hs vals.length 0 vals.length
    (by omega) (by omega) (le_refl _)
    (fun k hk => absurd hk (Nat.not_lt_zero k))
    (fun k hk hklen => absurd hklen (by omega))
  refine ⟨h.2.1, h.2.2.1, h.2.2.2, ?_⟩
  unfold binarySearchFunc
  simp only [Bool.and_eq_true, decide_eq_true_eq]
  exact and_congr Iff.rfl (findValue_zero_iff _ _)

/-- A filter whose predicate holds exactly on the first `i` positions is a
`take`. -/
theorem filter_eq_take_of_pointwise (p : Value → Bool) :
    ∀ (l : List Value) (i : Nat), i ≤ l.length →
    (∀ k, k < l.length → (p (l.getD k default) = true ↔ k < i)) →
    l.filter p = l.take i := by
  intro l
  induction l with
  | nil => intro i _ _; simp
  | cons a t ih =>
    intro i hi hpt
    have h0 := hpt 0 (by simp)
    simp only [List.getD_cons_zero] at h0
    match i with
    | 0 =>
      have hpa : p a = false := by
        rcases h : p a with _ | _
        · rfl
        · exact absurd (h0.mp h) (by omega)
      rw [List.take_zero, List.filter_cons_of_neg (by simp [hpa])]
      apply List.filter_eq_nil_iff.mpr
      intro x hx
      rcases List.mem_iff_get.mp hx with ⟨⟨k, hk⟩, hget⟩
      have := hpt (k + 1) (by simpa using Nat.succ_lt_succ hk)
      simp only [List.getD_cons_succ] at this
      rw [List.getD_eq_get _ _ hk] at this
      rw [hget] at this
      intro hpx
      exact absurd (this.mp hpx) (by omega)
    | i + 1 =>
      have hpa : p a = true := h0.mpr (by omega)
      rw [List.take_succ_cons, List.filter_cons_of_pos hpa]
      congr 1
      apply ih i (by simpa using Nat.le_of_succ_le_succ hi)
      intro k hk
      have := hpt (k + 1) (by simpa using Nat.succ_lt_succ hk)
      simpa using this

theorem getLast?_take_succ (l : List Value) (i : Nat) (hi : i < l.length) :
    (l.take (i + 1)).getLast? = some (l.getD i default) := by
  rw [List.getLast?_eq_get?]
  have hlen : (l.take (i + 1)).length = i + 1 := by
    simp only [List.length_take]
    omega
  rw [hlen]
  simp only [Nat.add_sub_cancel]
  rw [List.get?_take (by omega), List.get?_eq_get hi, List.getD_eq_get _ _ hi]

/-- On a sorted history, `specFetch` is determined by the binary-search
insertion point: the entry at the exact match, or the one just below the
insertion point, or nothing when the insertion point is the front. -/
theorem specFetch_eq_pivot (vals : List Value) (version : Int)
    (hs : ValuesSorted vals) :
    (((binarySearchFunc vals version).2 = true ∨
        1 ≤ (binarySearchFunc vals version).1) →
      specFetch vals version =
        some (vals.getD
          (if (binarySearchFunc vals version).2 then
            (binarySearchFunc vals version).1
          else (binarySearchFunc vals version).1 - 1) default)) ∧
    ((binarySearchFunc vals version).2 = false ∧
        (binarySearchFunc vals version).1 = 0 →
      specFetch vals version = none) := by
  obtain ⟨hlen, hlt, hge, hok⟩ := binarySearchFunc_char vals version hs
  constructor
  · rintro (h2 | h1)
    · obtain ⟨hilen, hiver⟩ := hok.mp h2
      rw [if_pos h2]
      unfold specFetch
      rw [filter_eq_take_of_pointwise _ vals ((binarySearchFunc vals version).1 + 1)
        (by omega) ?_]
      · exact getLast?_take_succ vals _ hilen
      · intro k hk
        simp only [decide_eq_true_eq]
        constructor
        · intro hkle
          by_contra hki
          have hik : (binarySearchFunc vals version).1 < k := by omega
          have h1 := hge k (by omega) hk
          have h2 := valuesSorted_getD_lt vals hs _ k hik hk
          omega
        · intro hki
          rcases Nat.lt_or_ge k (binarySearchFunc vals version).1 with h | h
          · exact le_of_lt (hlt k h)
          · have : k = (binarySearchFunc vals version).1 := by omega
            subst this
            omega
    · by_cases h2 : (binarySearchFunc vals version).2 = true
      · obtain ⟨hilen, hiver⟩ := hok.mp h2
        rw [if_pos h2]
        unfold specFetch
        rw [filter_eq_take_of_pointwise _ vals ((binarySearchFunc vals version).1 + 1)
          (by omega) ?_]
        · exact getLast?_take_succ vals _ hilen
        · intro k hk
          simp only [decide_eq_true_eq]
          constructor
          · intro hkle
            by_contra hki
            have hik : (binarySearchFunc vals version).1 < k := by omega
            have ha := hge k (by omega) hk
            have hb := valuesSorted_getD_lt vals hs _ k hik hk
            omega
          · intro hki
            rcases Nat.lt_or_ge k (binarySearchFunc vals version).1 with h | h
            · exact le_of_lt (hlt k h)
            · have : k = (binarySearchFunc vals version).1 := by omega
              subst this
              omega
      · have h2f : (binarySearchFunc vals version).2 = false := by
          rcases h : (binarySearchFunc vals version).2 with _ | _
          · rfl
          · exact absurd h h2
        rw [if_neg (by simp [h2f])]
        have hlen1 : 1 ≤ vals.length := by omega
        have hidx : (binarySearchFunc vals version).1 - 1 < vals.length := by omega
        unfold specFetch
        rw [filter_eq_take_of_pointwise _ vals (binarySearchFunc vals version).1
          hlen ?_]
        · have : (binarySearchFunc vals version).1 =
              ((binarySearchFunc vals version).1 - 1) + 1 := by omega
          rw [this]
          exact getLast?_take_succ vals _ hidx
        · intro k hk
          simp only [decide_eq_true_eq]
          constructor
          · intro hkle
            by_contra hki
            have hik : (binarySearchFunc vals version).1 ≤ k := by omega
            have ha := hge k hik hk
            have hb : (vals.getD k default).Version = version := by omega
            rcases Nat.lt_or_ge (binarySearchFunc vals version).1 k with h | h
            · have hc := hge (binarySearchFunc vals version).1 (le_refl _) (by omega)
              have hd := valuesSorted_getD_lt vals hs _ k h hk
              omega
            · have : k = (binarySearchFunc vals version).1 := by omega
              subst this
              exact absurd (hok.mpr ⟨hk, hb⟩) (by simp [h2f])
          · intro hki
            exact le_of_lt (hlt k hki)
  · rintro ⟨h2f, h1z⟩
    unfold specFetch
    rw [filter_eq_take_of_pointwise _ vals 0 (by omega) ?_]
    · simp
    · intro k hk
      simp only [decide_eq_true_eq]
      constructor
      · intro hkle
        have ha := hge k (by omega) hk
        have hb : (vals.getD k default).Version = version := by omega
        have hc := hge 0 (by omega) (by omega)
        have hd := valuesSorted_getD_le vals hs 0 k (by omega) hk
        have he : (vals.getD 0 default).Version = version := by omega
        exact absurd (hok.mpr ⟨by omega, by rw [h1z]; exact he⟩) (by simp [h2f])
      · omega

/-- mvalue.go `Fetch` computes the spec's "largest version at most `v`"
entry on every sorted history. -/
theorem fetch_eq_specFetch (mv : MultiValue) (hs : ValuesSorted mv.values)
    (version : Int) :
    mv.Fetch version = specFetch mv.values version := by
  obtain ⟨hlen, hlt, hge, hok⟩ := binarySearchFunc_char mv.values version hs
  obtain ⟨hpivot, hnone⟩ := specFetch_eq_pivot mv.values version hs
  unfold MultiValue.Fetch
  by_cases h2 : (binarySearchFunc mv.values version).2 = true
  · rw [if_pos (by simp [h2])]
    rw [hpivot (Or.inl h2), if_pos h2]
  · have h2f : (binarySearchFunc mv.values version).2 = false := by
      rcases h : (binarySearchFunc mv.values version).2 with _ | _
      · rfl
      · exact absurd h h2
    rw [if_neg (by simp [h2f])]
    by_cases h1 : 1 ≤ (binarySearchFunc mv.values version).1
    · have hidx : (binarySearchFunc mv.values version).1 - 1 < mv.values.length := by
        omega
      rw [if_pos ⟨h1, hidx⟩]
      rw [hpivot (Or.inr h1), if_neg (by simp [h2f])]
    · have h1z : (binarySearchFunc mv.values version).1 = 0 := by omega
      rw [if_neg (by omega)]
      rw [hnone ⟨h2f, h1z⟩]

/-- A found entry of `specFetch` belongs to the history. -/
theorem specFetch_mem {vals : List Value} {version : Int} {v : Value}
    (h : specFetch vals version = some v) : v ∈ vals := by
  unfold specFetch at h
  exact List.mem_of_mem_filter (List.mem_of_mem_getLast? h)

/-- A found entry of `specFetch` has version at most the bound. -/
theorem specFetch_version_le {vals : List Value} {version : Int} {v : Value}
    (h : specFetch vals version = some v) : v.Version ≤ version := by
  unfold specFetch at h
  have := List.of_mem_filter (List.mem_of_mem_getLast? h)
  simpa using this

/-- When every entry is at most the bound, `specFetch` is the last entry. -/
theorem specFetch_of_all_le {vals : List Value} {version : Int}
    (h : ∀ v ∈ vals, v.Version ≤ version) :
    specFetch vals version = vals.getLast? := by
  unfold specFetch
  rw [List.filter_eq_self.mpr (fun a ha => by simpa using h a ha)]

/-- mvalue.go `Compact` on a sorted history with at least two entries:
it removes exactly the entries strictly older than the newest entry whose
version is at most `minV` (the `specFetch` pivot), and is the identity
when no entry is that old. -/
theorem compact_char (mv : MultiValue) (hs : ValuesSorted mv.values)
    (h2 : 2 ≤ mv.values.length) (minV : Int) :
    Compact (some mv) minV =
      match specFetch mv.values minV with
      | none => some mv
      | some pivot =>
        some ⟨mv.values.filter (fun v => !decide (v.Version < pivot.Version))⟩ := by
  obtain ⟨hlen, hlt, hge, hok⟩ := binarySearchFunc_char mv.values minV hs
  obtain ⟨hpivotL, hnoneL⟩ := specFetch_eq_pivot mv.values minV hs
  simp only [Compact]
  rw [if_neg (by omega), if_neg (by omega)]
  by_cases hz : (binarySearchFunc mv.values minV).2 = false ∧
      (binarySearchFunc mv.values minV).1 = 0
  · rw [hnoneL hz]
    rw [if_pos (by simp [hz.1, hz.2])]
  · have hor : (binarySearchFunc mv.values minV).2 = true ∨
        1 ≤ (binarySearchFunc mv.values minV).1 := by
      by_cases hb : (binarySearchFunc mv.values minV).2 = true
      · exact Or.inl hb
      · have hbf : (binarySearchFunc mv.values minV).2 = false :=
          Bool.not_eq_true _ ▸ (by simpa using hb)
        have : (binarySearchFunc mv.values minV).1 ≠ 0 := fun h =>
          hz ⟨hbf, h⟩
        omega
    rw [hpivotL hor]
    have hcond : ¬ ((!(binarySearchFunc mv.values minV).2 &&
        decide ((binarySearchFunc mv.values minV).1 = 0)) = true) := by
      rcases hor with h | h
      · simp [h]
      · simp only [Bool.and_eq_true, decide_eq_true_eq, Bool.not_eq_true']
        rintro ⟨_, h0⟩
        omega
    rw [if_neg hcond]
    set idx := if (binarySearchFunc mv.values minV).2 then
        (binarySearchFunc mv.values minV).1
      else (binarySearchFunc mv.values minV).1 - 1 with hidx
    show (if (mv.values.filter _).length = mv.values.length then some mv
        else some ⟨mv.values.filter _⟩) = _
    by_cases hfl : (mv.values.filter
        (fun v => !decide (v.Version < (mv.values.getD idx default).Version))).length
        = mv.values.length
    · rw [if_pos hfl]
      have hfe : mv.values.filter
          (fun v => !decide (v.Version < (mv.values.getD idx default).Version))
          = mv.values := (List.filter_sublist _).eq_of_length hfl
      show some mv = some
        (⟨mv.values.filter
          (fun v => !decide (v.Version < (mv.values.getD idx default).Version))⟩ :
          MultiValue)
      rw [hfe]
    · rw [if_neg hfl]

/-! ## Association-list lemmas -/

theorem lookup_mapInsert_self {κ α : Type} [BEq κ] [LawfulBEq κ]
    (m : List (κ × α)) (k : κ) (v : α) :
    (mapInsert m k v).lookup k = some v := by
  induction m with
  | nil => simp [mapInsert, List.lookup]
  | cons e rest ih =>
    by_cases h : e.1 == k
    · simp [mapInsert, h, List.lookup]
    · simp only [mapInsert, h, if_false, Bool.false_eq_true]
      rw [List.lookup_cons]
      simp only [beq_iff_eq] at h
      have : (k == e.1) = false := beq_false_of_ne (fun hk => h hk.symm)
      simp [this, ih]

theorem lookup_mapInsert_ne {κ α : Type} [BEq κ] [LawfulBEq κ]
    (m : List (κ × α)) (k k2 : κ) (v : α) (hne : k2 ≠ k) :
    (mapInsert m k v).lookup k2 = m.lookup k2 := by
  induction m with
  | nil => simp [mapInsert, List.lookup, beq_false_of_ne hne]
  | cons e rest ih =>
    by_cases h : e.1 == k
    · have he : (k2 == e.1) = false := by
        have : e.1 = k := by simpa using h
        subst this
        exact beq_false_of_ne hne
      simp [mapInsert, h, List.lookup, he, beq_false_of_ne hne]
    · simp only [mapInsert, h, if_false, Bool.false_eq_true]
      rw [List.lookup_cons, List.lookup_cons]
      by_cases h2 : k2 == e.1
      · simp [h2]
      · simp only [h2, Bool.false_eq_true, if_false]
        · simpa using ih

theorem lookup_mapErase_ne {κ α : Type} [BEq κ] [LawfulBEq κ]
    (m : List (κ × α)) (k k2 : κ) (hne : k2 ≠ k) :
    (mapErase m k).lookup k2 = m.lookup k2 := by
  induction m with
  | nil => simp [mapErase]
  | cons e rest ih =>
    by_cases h : e.1 == k
    · have he : (k2 == e.1) = false := by
        have : e.1 = k := by simpa using h
        subst this
        exact beq_false_of_ne hne
      simp only [mapErase, List.filter_cons, h, Bool.not_true, Bool.false_eq_true,
        if_false]
      rw [List.lookup_cons]
      simp only [he, Bool.false_eq_true, if_false]
      exact ih
    · simp only [mapErase, List.filter_cons, h, Bool.not_false, if_true]
      rw [List.lookup_cons, List.lookup_cons]
      by_cases h2 : k2 == e.1
      · simp [h2]
      · simp only [h2, Bool.false_eq_true, if_false]
        exact ih

theorem lookup_mem {κ α : Type} [BEq κ] [LawfulBEq κ]
    {m : List (κ × α)} {k : κ} {v : α} (h : m.lookup k = some v) :
    (k, v) ∈ m := by
  induction m with
  | nil => simp [List.lookup] at h
  | cons e rest ih =>
    rw [List.lookup_cons] at h
    by_cases h2 : k == e.1
    · simp only [h2, if_true] at h
      have hk : k = e.1 := by simpa using h2
      have : e = (k, v) := by
        cases e
        simp_all
      simp [this]
    · simp only [h2, Bool.false_eq_true, if_false] at h
      exact List.mem_cons_of_mem _ (ih h)

theorem lookup_isSome_of_mem {κ α : Type} [BEq κ] [LawfulBEq κ]
    {m : List (κ × α)} {e : κ × α} (h : e ∈ m) :
    (m.lookup e.1).isSome := by
  induction m with
  | nil => simp at h
  | cons e2 rest ih =>
    rw [List.lookup_cons]
    by_cases h2 : e.1 == e2.1
    · simp [h2]
    · simp only [h2, Bool.false_eq_true, if_false]
      rcases List.mem_cons.mp h with h3 | h3
      · subst h3
        simp at h2
      · exact ih h3

/-! ## Lemmas about the SSI and ww checks -/

theorem overlappingKeys_eq_nil_iff (rds : List (String × Value))
    (wrs : List (String × Option String)) :
    overlappingKeys rds wrs = [] ↔
      ∀ e ∈ rds, (wrs.lookup e.1).isSome = false := by
  unfold overlappingKeys
  rw [List.map_eq_nil, List.filter_eq_nil_iff]
  constructor
  · intro h e he
    have := h e he
    rcases hb : (wrs.lookup e.1).isSome with _ | _
    · rfl
    · exact absurd hb this
  · intro h e he
    rw [h e he]
    simp

theorem ssiCheck_some_isSSI (db : Database) (tx : TxRec) :
    ∀ peers e, ssiCheck db tx peers = some e → e.isSSI = true := by
  intro peers
  induction peers with
  | nil => intro e h; simp [ssiCheck] at h
  | cons p rest ih =>
    intro e h
    unfold ssiCheck at h
    split at h
    · exact ih e h
    · split at h
      · exact ih e h
      · split at h
        · injection h with h2
          subst h2
          rfl
        · split at h
          · injection h with h2
            subst h2
            rfl
          · exact ih e h

theorem ssiCheck_eq_none_iff (db : Database) (tx : TxRec) :
    ∀ peers, ssiCheck db tx peers = none ↔
      ∀ p ∈ peers, (db.getTx p).committed = true →
        (db.getTx p).writes ≠ [] →
        overlappingKeys tx.reads (db.getTx p).writes = [] ∧
        overlappingKeys (db.getTx p).reads tx.writes = [] := by
  intro peers
  induction peers with
  | nil => simp [ssiCheck]
  | cons p rest ih =>
    unfold ssiCheck
    split
    · rw [ih]
      constructor
      · intro h q hq
        rcases List.mem_cons.mp hq with h2 | h2
        · subst h2
          intro hc
          simp_all
        · exact h q h2
      · intro h q hq
        exact h q (List.mem_cons_of_mem _ hq)
    · split
      · rw [ih]
        constructor
        · intro h q hq
          rcases List.mem_cons.mp hq with h2 | h2
          · subst h2
            intro _ hw
            exact absurd (List.length_eq_zero.mp (by assumption)) hw
          · exact h q h2
        · intro h q hq
          exact h q (List.mem_cons_of_mem _ hq)
      · split
        · constructor
          · intro h
            simp at h
          · intro h
            have hcom : (db.getTx p).committed = true := by
              rcases hb : (db.getTx p).committed with _ | _
              · simp_all
              · rfl
            have hw : (db.getTx p).writes ≠ [] := by
              intro hnil
              simp_all
            have := (h p (List.mem_cons_self _ _) hcom hw).1
            simp_all
        · split
          · constructor
            · intro h
              simp at h
            · intro h
              have hcom : (db.getTx p).committed = true := by
                rcases hb : (db.getTx p).committed with _ | _
                · simp_all
                · rfl
              have hw : (db.getTx p).writes ≠ [] := by
                intro hnil
                simp_all
              have := (h p (List.mem_cons_self _ _) hcom hw).2
              simp_all
          · rw [ih]
            constructor
            · intro h q hq
              rcases List.mem_cons.mp hq with h2 | h2
              · subst h2
                intro _ _
                constructor
                · have : ¬ (overlappingKeys tx.reads (db.getTx q).writes).length > 0 :=
                    by assumption
                  rcases hr : overlappingKeys tx.reads (db.getTx q).writes with _ | ⟨a, l⟩
                  · rfl
                  · rw [hr] at this
                    simp at this
                · have : ¬ (overlappingKeys (db.getTx q).reads tx.writes).length > 0 :=
                    by assumption
                  rcases hr : overlappingKeys (db.getTx q).reads tx.writes with _ | ⟨a, l⟩
                  · rfl
                  · rw [hr] at this
                    simp at this
              · exact h q h2
            · intro h q hq
              exact h q (List.mem_cons_of_mem _ hq)

/-- The per-key pass condition of the Step-3 ww check. -/
def wwPass (kvs : List (String × MultiValue)) (sv : Int) (key : String) : Bool :=
  match kvs.lookup key with
  | none => true
  | some mv =>
    match mv.Fetch maxInt64, mv.Fetch sv with
    | none, none => true
    | none, some _ => false
    | some _, none => false
    | some c, some i => c.Version == i.Version

theorem wwCheck_eq_none_iff (kvs : List (String × MultiValue)) (sv : Int) :
    ∀ ws, wwCheck kvs sv ws = none ↔ ∀ e ∈ ws, wwPass kvs sv e.1 = true := by
  intro ws
  induction ws with
  | nil => simp [wwCheck]
  | cons e rest ih =>
    obtain ⟨key, value⟩ := e
    rcases hl : kvs.lookup key with _ | mv
    · simp only [wwCheck, hl, ih]
      constructor
      · intro h q hq
        rcases List.mem_cons.mp hq with h2 | h2
        · subst h2
          simp [wwPass, hl]
        · exact h q h2
      · intro h q hq
        exact h q (List.mem_cons_of_mem _ hq)
    · rcases hc : mv.Fetch maxInt64 with _ | c <;>
        rcases hi : mv.Fetch sv with _ | i
      · simp only [wwCheck, hl, hc, hi, ih]
        constructor
        · intro h q hq
          rcases List.mem_cons.mp hq with h2 | h2
          · subst h2
            simp [wwPass, hl, hc, hi]
          · exact h q h2
        · intro h q hq
          exact h q (List.mem_cons_of_mem _ hq)
      · simp only [wwCheck, hl, hc, hi]
        constructor
        · intro h
          simp at h
        · intro h
          have := h (key, value) (List.mem_cons_self _ _)
          simp [wwPass, hl, hc, hi] at this
      · simp only [wwCheck, hl, hc, hi]
        constructor
        · intro h
          simp at h
        · intro h
          have := h (key, value) (List.mem_cons_self _ _)
          simp [wwPass, hl, hc, hi] at this
      · simp only [wwCheck, hl, hc, hi]
        by_cases hv : c.Version = i.Version
        · rw [if_neg (by simp [hv]), ih]
          constructor
          · intro h q hq
            rcases List.mem_cons.mp hq with h2 | h2
            · subst h2
              simp [wwPass, hl, hc, hi, hv]
            · exact h q h2
          · intro h q hq
            exact h q (List.mem_cons_of_mem _ hq)
        · rw [if_pos hv]
          constructor
          · intro h
            simp at h
          · intro h
            have := h (key, value) (List.mem_cons_self _ _)
            simp [wwPass, hl, hc, hi] at this
            exact absurd this hv

theorem wwCheck_some_isWW (kvs : List (String × MultiValue)) (sv : Int) :
    ∀ ws e, wwCheck kvs sv ws = some e → e.isWW = true := by
  intro ws
  induction ws with
  | nil => intro e h; simp [wwCheck] at h
  | cons q rest ih =>
    intro e h
    unfold wwCheck at h
    split at h
    · exact ih e h
    · split at h
      · exact ih e h
      · injection h with h2
        subst h2
        rfl
      · injection h with h2
        subst h2
        rfl
      · split at h
        · injection h with h2
          subst h2
          rfl
        · exact ih e h

/-! ## Lemmas about the apply step of commit -/

theorem lookup_mapErase_self {κ α : Type} [BEq κ] [LawfulBEq κ]
    (m : List (κ × α)) (k : κ) :
    (mapErase m k).lookup k = none := by
  induction m with
  | nil => simp [mapErase]
  | cons e rest ih =>
    by_cases h : e.1 == k
    · simpa [mapErase, List.filter_cons, h] using ih
    · simp only [mapErase, List.filter_cons, h, Bool.not_false, if_true]
      rw [List.lookup_cons]
      have : (k == e.1) = false := by
        rw [beq_eq_false_iff_ne]
        intro h2
        exact h (beq_iff_eq.mpr h2.symm)
      simp only [this, Bool.false_eq_true, if_false]
      exact ih

/-- The effect of the Step-4 apply loop on a single written key's history:
create a fresh single-entry history, or append-then-compact (where a
`none` result of `Compact` deletes the entry). -/
def applyOne (old : Option MultiValue) (value : Option String)
    (newVersion minVersion : Int) : Option MultiValue :=
  match old with
  | none => some (NewMultiValue (writeValue newVersion value))
  | some m =>
    Compact (some (Append (some m) (writeValue newVersion value))) minVersion

theorem applyWrites_lookup_not_mem (nv mvv : Int) :
    ∀ (ws : List (String × Option String)) (kvs : List (String × MultiValue))
      (key : String), (∀ e ∈ ws, e.1 ≠ key) →
      (applyWrites kvs nv mvv ws).lookup key = kvs.lookup key := by
  intro ws
  induction ws with
  | nil => intro kvs key _; rfl
  | cons e rest ih =>
    intro kvs key h
    obtain ⟨k0, v0⟩ := e
    have hk0 : k0 ≠ key := h (k0, v0) (List.mem_cons_self _ _)
    have hkey : key ≠ k0 := fun h2 => hk0 h2.symm
    simp only [applyWrites]
    rw [ih _ key (fun q hq => h q (List.mem_cons_of_mem _ hq))]
    rcases hl : kvs.lookup k0 with _ | mv
    · simp only [hl]
      exact lookup_mapInsert_ne _ _ _ _ hkey
    · simp only [hl]
      rcases hcp : Compact (some (Append (some mv) (writeValue nv v0))) mvv
        with _ | nmv
      · exact lookup_mapErase_ne _ _ _ hkey
      · exact lookup_mapInsert_ne _ _ _ _ hkey

theorem applyWrites_lookup (nv mvv : Int) :
    ∀ (ws : List (String × Option String)) (kvs : List (String × MultiValue))
      (key : String) (value : Option String),
      ws.lookup key = some value → (ws.map (·.1)).Nodup →
      (applyWrites kvs nv mvv ws).lookup key =
        applyOne (kvs.lookup key) value nv mvv := by
  intro ws
  induction ws with
  | nil => intro kvs key value h _; simp [List.lookup] at h
  | cons e rest ih =>
    intro kvs key value hlk hnd
    obtain ⟨k0, v0⟩ := e
    rw [List.lookup_cons] at hlk
    simp only [List.map_cons, List.nodup_cons] at hnd
    by_cases hk : key == k0
    · simp only [hk, if_true] at hlk
      injection hlk with hv
      subst hv
      have hkeq : key = k0 := by simpa using hk
      subst hkeq
      simp only [applyWrites]
      have hrest : ∀ q ∈ rest, q.1 ≠ key := by
        intro q hq h2
        exact hnd.1 (h2 ▸ List.mem_map_of_mem (·.1) hq)
      rw [applyWrites_lookup_not_mem nv mvv rest _ key hrest]
      rcases hl : kvs.lookup key with _ | mv
      · simp only [hl, applyOne]
        exact lookup_mapInsert_self _ _ _
      · simp only [hl, applyOne]
        rcases hcp : Compact (some (Append (some mv) (writeValue nv v0))) mvv
          with _ | nmv
        · exact lookup_mapErase_self _ _
        · exact lookup_mapInsert_self _ _ _
    · simp only [hk, Bool.false_eq_true, if_false] at hlk
      have hkne : key ≠ k0 := by simpa using hk
      simp only [applyWrites]
      rw [ih _ key value hlk hnd.2]
      rcases hl : kvs.lookup k0 with _ | mv
      · simp only [hl]
        rw [lookup_mapInsert_ne _ _ _ _ hkne]
      · simp only [hl]
        rcases hcp : Compact (some (Append (some mv) (writeValue nv v0))) mvv
          with _ | nmv
        · rw [lookup_mapErase_ne _ _ _ hkne]
        · rw [lookup_mapInsert_ne _ _ _ _ hkne]

theorem writeValue_version (nv : Int) (h : 0 < nv) (value : Option String) :
    (writeValue nv value).Version = nv := by
  have h2 : -nv < 0 := by omega
  have h3 : ¬ (nv < 0) := by omega
  rcases value with _ | s
  · simp [writeValue, NewValue, Value.Delete, Value.Version, Value.IsDeleted,
      h, h2]
  · simp [writeValue, NewValue, Value.SetData, Value.Version, Value.IsDeleted,
      h3]

/-- After applying one write on top of a well-formed history, the history
exists, stays sorted and nonempty, ends with the new value at the new
commit version, and has no version above it. -/
theorem applyOne_shape (old : Option MultiValue) (value : Option String)
    (nv mvv oldMax : Int) (hnv : 0 < nv) (hmax : oldMax < nv)
    (hold : ∀ m, old = some m → ValuesSorted m.values ∧ m.values ≠ [] ∧
      ∀ v ∈ m.values, v.Version ≤ oldMax) :
    ∃ H : MultiValue, applyOne old value nv mvv = some H ∧
      H.values ≠ [] ∧ ValuesSorted H.values ∧
      H.values.getLast? = some (writeValue nv value) ∧
      ∀ v ∈ H.values, v.Version ≤ nv := by
  rcases old with _ | m
  · refine ⟨NewMultiValue (writeValue nv value), rfl, by simp [NewMultiValue],
      ?_, by simp [NewMultiValue], ?_⟩
    · simp [NewMultiValue, ValuesSorted]
    · intro v hv
      simp only [NewMultiValue, List.mem_singleton] at hv
      subst hv
      rw [writeValue_version nv hnv value]
  · obtain ⟨hsort, hne, hbound⟩ := hold m rfl
    have hlen : m.values.length ≠ 0 := fun h =>
      hne (List.length_eq_zero.mp h)
    have happ : Append (some m) (writeValue nv value) =
        ⟨m.values ++ [writeValue nv value]⟩ := by
      simp only [Append]
      rw [if_neg hlen]
    have hwver : (writeValue nv value).Version = nv := writeValue_version nv hnv value
    have hsort2 : ValuesSorted (m.values ++ [writeValue nv value]) := by
      unfold ValuesSorted
      rw [List.pairwise_append]
      refine ⟨hsort, List.pairwise_singleton _ _, ?_⟩
      intro a ha b hb
      simp only [List.mem_singleton] at hb
      subst hb
      rw [hwver]
      exact lt_of_le_of_lt (hbound a ha) hmax
    have hbound2 : ∀ v ∈ m.values ++ [writeValue nv value], v.Version ≤ nv := by
      intro v hv
      rcases List.mem_append.mp hv with h | h
      · exact le_trans (hbound v h) (le_of_lt hmax)
      · simp only [List.mem_singleton] at h
        subst h
        rw [hwver]
    have hlen2 : 2 ≤ (m.values ++ [writeValue nv value]).length := by
      rw [List.length_append]
      simp only [List.length_singleton]
      omega
    simp only [applyOne]
    rw [happ]
    rw [compact_char ⟨m.values ++ [writeValue nv value]⟩ hsort2 hlen2 mvv]
    rcases hsf : specFetch (m.values ++ [writeValue nv value]) mvv with _ | pivot
    · exact ⟨⟨m.values ++ [writeValue nv value]⟩, rfl, by simp,
        hsort2, List.getLast?_concat _, hbound2⟩
    · have hpmem := specFetch_mem hsf
      have hple : pivot.Version ≤ nv := hbound2 pivot hpmem
      have hfw : (fun v => !decide (v.Version < pivot.Version))
          (writeValue nv value) = true := by
        simp only [Bool.not_eq_true', decide_eq_false_iff_not, not_lt]
        rw [hwver]
        exact hple
      refine ⟨⟨(m.values ++ [writeValue nv value]).filter
          (fun v => !decide (v.Version < pivot.Version))⟩, rfl, ?_, ?_, ?_, ?_⟩
      · rw [List.filter_append]
        simp only [List.filter_cons, List.filter_nil, hfw, if_true]
        simp
      · exact hsort2.filter _
      · rw [List.filter_append]
        simp only [List.filter_cons, List.filter_nil, hfw, if_true]
        exact List.getLast?_concat _
      · intro v hv
        exact hbound2 v (List.mem_of_mem_filter hv)

/-! ## Inversion lemmas for `commit` -/

theorem commit_closed (db : Database) (tid : Nat)
    (ha : (db.getTx tid).dbAttached = false) :
    commit db tid = (db, some .invalid) := by
  simp [commit, ha]

theorem commit_already_committed (db : Database) (tid : Nat)
    (ha : (db.getTx tid).dbAttached = true)
    (hc : (db.getTx tid).committed = true) :
    commit db tid = (db, some .invalid) := by
  simp [commit, ha, hc]

theorem commit_readonly (db : Database) (tid : Nat)
    (ha : (db.getTx tid).dbAttached = true)
    (hc : (db.getTx tid).committed = false)
    (hw : (db.getTx tid).writes = []) :
    commit db tid =
      (db.setTx tid { db.getTx tid with committed := true }, none) := by
  simp [commit, ha, hc, hw]

/-- With the validity checks and the read-only fast path out of the way,
`commit` is the SSI check, then the ww check, then the apply step. -/
theorem commit_checks (db : Database) (tid : Nat)
    (ha : (db.getTx tid).dbAttached = true)
    (hc : (db.getTx tid).committed = false)
    (hw : (db.getTx tid).writes ≠ []) :
    commit db tid =
      match ssiCheck db (db.getTx tid)
          ((db.concurrentMap.lookup tid).getD []) with
      | some e => (db, some e)
      | none =>
        match wwCheck db.kvs (db.getTx tid).snapshotVersion
            (db.getTx tid).writes with
        | some e => (db, some e)
        | none =>
          ({ db with
             kvs := applyWrites db.kvs (db.maxCommitVersion + 1)
               db.minVersionLocked (db.getTx tid).writes,
             maxCommitVersion := db.maxCommitVersion + 1,
             txs := db.txs.set tid { db.getTx tid with committed := true } },
           none) := by
  have hwl : ¬ ((db.getTx tid).writes.length = 0) := by
    intro h
    exact hw (List.length_eq_zero.mp h)
  simp [commit, ha, hc, hwl]

/-- A failed `commit` leaves the database state unchanged. -/
theorem commit_err_db (db : Database) (tid : Nat) (e : CommitErr)
    (h : (commit db tid).2 = some e) : (commit db tid).1 = db := by
  rcases ha : (db.getTx tid).dbAttached with _ | _
  · rw [commit_closed db tid ha]
  · rcases hc : (db.getTx tid).committed with _ | _
    · rcases hw : (db.getTx tid).writes with _ | ⟨w, ws⟩
      · rw [commit_readonly db tid ha hc hw] at h
        simp at h
      · rw [commit_checks db tid ha hc (by rw [hw]; simp)] at h ⊢
        rcases hssi : ssiCheck db (db.getTx tid)
            ((db.concurrentMap.lookup tid).getD []) with _ | e1
        · rw [hssi] at h
          rcases hww : wwCheck db.kvs (db.getTx tid).snapshotVersion
              (db.getTx tid).writes with _ | e2
          · rw [hww] at h
            simp at h
          · rfl
        · rfl
    · rw [commit_already_committed db tid ha hc]

/-- A successful `commit` of a transaction with a non-empty write buffer
passed both checks and performed the apply step. -/
theorem commit_ok_inversion (db db1 : Database) (tid : Nat)
    (ha : (db.getTx tid).dbAttached = true)
    (hc : (db.getTx tid).committed = false)
    (hw : (db.getTx tid).writes ≠ [])
    (h : commit db tid = (db1, none)) :
    ssiCheck db (db.getTx tid) ((db.concurrentMap.lookup tid).getD []) = none ∧
    wwCheck db.kvs (db.getTx tid).snapshotVersion (db.getTx tid).writes = none ∧
    db1 = { db with
      kvs := applyWrites db.kvs (db.maxCommitVersion + 1)
        db.minVersionLocked (db.getTx tid).writes,
      maxCommitVersion := db.maxCommitVersion + 1,
      txs := db.txs.set tid { db.getTx tid with committed := true } } := by
  rw [commit_checks db tid ha hc hw] at h
  rcases hssi : ssiCheck db (db.getTx tid)
      ((db.concurrentMap.lookup tid).getD []) with _ | e1
  · rw [hssi] at h
    rcases hww : wwCheck db.kvs (db.getTx tid).snapshotVersion
        (db.getTx tid).writes with _ | e2
    · rw [hww] at h
      refine ⟨rfl, rfl, ?_⟩
      exact (congrArg Prod.fst h).symm
    · rw [hww] at h
      exact absurd (congrArg Prod.snd h) (by simp)
  · rw [hssi] at h
    exact absurd (congrArg Prod.snd h) (by simp)

theorem string_length_ne_zero {s : String} (h : s ≠ "") : s.length ≠ 0 := by
  intro h2
  apply h
  cases s with
  | mk data =>
    simp [String.length] at h2
    simp [h2]

theorem closeTransaction_max (db : Database) (tid : Nat) :
    (db.closeTransaction tid).maxCommitVersion = db.maxCommitVersion := rfl

theorem setTx_max (db : Database) (tid : Nat) (t : TxRec) :
    (db.setTx tid t).maxCommitVersion = db.maxCommitVersion := rfl

/-! ## Concrete scenario: the repository's write-write conflict test

`New` → T0 sets `key1 = initial` and commits (version 1) → T1 and T2 begin
concurrently, both `Get` then `Set` `key1` → T1 commits, T2 commits. -/

namespace Scen

def db0 : Database := New
def p0 : Database × Nat := db0.NewTransaction
def t0 : Nat := p0.2
def db1 : Database := (Transaction.Set p0.1 t0 "key1" (some (.ok "initial"))).1
def c0 : Database × Option CommitErr := Transaction.Commit db1 t0
def db3 : Database := c0.1
def p1 : Database × Nat := db3.NewTransaction
def t1 : Nat := p1.2
def p2 : Database × Nat := p1.1.NewTransaction
def t2 : Nat := p2.2
def db5 : Database := p2.1
def db6 : Database := (Transaction.Get db5 t1 "key1").1
def db7 : Database := (Transaction.Set db6 t1 "key1" (some (.ok "value1"))).1
def db8 : Database := (Transaction.Get db7 t2 "key1").1
def db9 : Database := (Transaction.Set db8 t2 "key1" (some (.ok "value2"))).1
def c1 : Database × Option CommitErr := Transaction.Commit db9 t1
def db10 : Database := c1.1
def c2 : Database × Option CommitErr := Transaction.Commit db10 t2

/-- The same interleaving without the two `Get` calls: both transactions
blindly overwrite `key1`. -/
def e7 : Database := (Transaction.Set db5 t1 "key1" (some (.ok "value1"))).1
def e9 : Database := (Transaction.Set e7 t2 "key1" (some (.ok "value2"))).1
def d1 : Database × Option CommitErr := Transaction.Commit e9 t1
def e10 : Database := d1.1
def d2 : Database × Option CommitErr := Transaction.Commit e10 t2

/-- Snapshots opened at various points of the scenario (the live-handle
states the point-read theorems are applied at). -/
def sdb8 : Database := db8.NewSnapshot.1
def sdb9 : Database := db9.NewSnapshot.1
def s10 : Database × Nat := db10.NewSnapshot
def sdb10 : Database := s10.1

end Scen

/-- A database whose only transaction is terminal (closed): the heap holds
one committed record with a nil back-pointer. -/
def closedTxDb : Database :=
  { liveTxes := [], liveSnaps := [], concurrentMap := [],
    maxCommitVersion := 1, kvs := [],
    txs := [{ dbAttached := false, snapshotVersion := 1, committed := true,
              reads := [], writes := [] }], snaps := [] }

/-- C4: for every successful write-transaction commit the new commit
version is the prior `max_commit_version` plus exactly 1 and becomes the
new `max_commit_version`; read-only commits, failed commits and rollbacks
leave `max_commit_version` unchanged. -/
theorem commit_version_step (db : Database) (tid : Nat) :
    (∀ db2, Transaction.Commit db tid = (db2, none) →
      ((db.getTx tid).writes ≠ [] →
        db2.maxCommitVersion = db.maxCommitVersion + 1) ∧
      ((db.getTx tid).writes = [] →
        db2.maxCommitVersion = db.maxCommitVersion)) ∧
    (∀ db2 e, Transaction.Commit db tid = (db2, some e) →
      db2.maxCommitVersion = db.maxCommitVersion) ∧
    (∀ db2 r, Transaction.Rollback db tid = (db2, r) →
      db2.maxCommitVersion = db.maxCommitVersion) := by
  refine ⟨?_, ?_, ?_⟩
  · intro db2 h
    unfold Transaction.Commit at h
    by_cases ha : (db.getTx tid).dbAttached
    · rw [if_neg (by simp [ha])] at h
      have hc2 : (commit db tid).1.closeTransaction tid = db2 ∧
          (commit db tid).2 = none := by
        constructor
        · exact congrArg Prod.fst h
        · exact congrArg Prod.snd h
      rcases hcm : (db.getTx tid).committed with _ | _
      · constructor
        · intro hw
          obtain ⟨_, _, hdb1⟩ := commit_ok_inversion db (commit db tid).1 tid
            ha hcm hw (by rw [← hc2.2])
          rw [← hc2.1, closeTransaction_max, hdb1]
        · intro hw
          rw [commit_readonly db tid ha hcm hw] at hc2
          rw [← hc2.1]
          rfl
      · rw [commit_already_committed db tid ha hcm] at hc2
        exact absurd hc2.2 (by simp)
    · rw [if_pos (by simp [ha])] at h
      exact absurd (congrArg Prod.snd h) (by simp)
  · intro db2 e h
    unfold Transaction.Commit at h
    by_cases ha : (db.getTx tid).dbAttached
    · rw [if_neg (by simp [ha])] at h
      have h1 := congrArg Prod.fst h
      have h2 := congrArg Prod.snd h
      simp only at h1 h2
      rw [← h1, closeTransaction_max]
      exact congrArg Database.maxCommitVersion (commit_err_db db tid e h2)
    · rw [if_pos (by simp [ha])] at h
      have h1 := congrArg Prod.fst h
      simp only at h1
      rw [← h1]
  · intro db2 r h
    unfold Transaction.Rollback at h
    by_cases ha : (db.getTx tid).dbAttached
    · rw [if_neg (by simp [ha])] at h
      have h1 := congrArg Prod.fst h
      simp only at h1
      rw [← h1, closeTransaction_max]
    · rw [if_pos (by simp [ha])] at h
      have h1 := congrArg Prod.fst h
      simp only at h1
      rw [← h1]

/-- Witness for C4 at the scenario's first commit: a successful
write-transaction commit from `max_commit_version = 0` publishes 1, and a
rollback of a fresh transaction leaves it unchanged. -/
theorem commit_version_step_witness :
    Scen.db3.maxCommitVersion = Scen.db1.maxCommitVersion + 1 ∧
    (Transaction.Rollback Scen.db5 Scen.t2).1.maxCommitVersion =
      Scen.db5.maxCommitVersion :=
  ⟨((commit_version_step Scen.db1 Scen.t0).1 Scen.db3 (by decide)).1
      (by decide),
   (commit_version_step Scen.db5 Scen.t2).2.2
      (Transaction.Rollback Scen.db5 Scen.t2).1 none (by decide)⟩

/-- C10: `Set` validates the key and the source before reading, drains the
source at call time, returns the source's I/O error with the write buffer
(and the whole state) unchanged, and on success buffers the full payload. -/
theorem set_source_semantics (db : Database) (tid : Nat) (key : String)
    (value : PayloadSrc) :
    (key = "" → Transaction.Set db tid key value = (db, .errInvalid)) ∧
    (value = none → Transaction.Set db tid key value = (db, .errInvalid)) ∧
    (∀ e, value = some (.error e) → key ≠ "" →
      Transaction.Set db tid key value = (db, .ioErr e)) ∧
    (∀ s, value = some (.ok s) → key ≠ "" →
      Transaction.Set db tid key value =
        (db.setTx tid { db.getTx tid with
          writes := mapInsert (db.getTx tid).writes key (some s) }, .ok)) := by
  refine ⟨?_, ?_, ?_, ?_⟩
  · intro h
    subst h
    simp [Transaction.Set]
  · intro h
    subst h
    unfold Transaction.Set
    split
    · rfl
    · rfl
  · intro e h hk
    subst h
    unfold Transaction.Set
    rw [if_neg (string_length_ne_zero hk)]
  · intro s h hk
    subst h
    unfold Transaction.Set
    rw [if_neg (string_length_ne_zero hk)]

/-- Witness for C10: in the scenario an erroring reader fails `Set` and
leaves the database unchanged, while empty key and nil reader are invalid. -/
theorem set_source_semantics_witness :
    Transaction.Set Scen.db5 Scen.t1 "key1" (some (.error "disk gone")) =
      (Scen.db5, .ioErr "disk gone") ∧
    Transaction.Set Scen.db5 Scen.t1 "" (some (.ok "x")) =
      (Scen.db5, .errInvalid) ∧
    Transaction.Set Scen.db5 Scen.t1 "key1" none = (Scen.db5, .errInvalid) :=
  ⟨(set_source_semantics Scen.db5 Scen.t1 "key1"
      (some (.error "disk gone"))).2.2.1 "disk gone" rfl (by decide),
   (set_source_semantics Scen.db5 Scen.t1 "" (some (.ok "x"))).1 rfl,
   (set_source_semantics Scen.db5 Scen.t1 "key1" none).2.1 rfl⟩

/-- C9 counterexample: `Set` on a terminal (closed, already committed)
transaction returns success and buffers the write, not the invalid-input
error the claim requires. -/
theorem terminal_set_not_invalid :
    (Transaction.Set closedTxDb 0 "k" (some (.ok "v"))).2 = .ok ∧
    (Transaction.Set closedTxDb 0 "k" (some (.ok "v"))).2 ≠ .errInvalid ∧
    (Transaction.Delete closedTxDb 0 "k").2 = .ok := by
  refine ⟨by decide, by decide, by decide⟩

/-- C9 (amended): after a transaction reaches a terminal state, only
`Commit` and `Rollback` signal invalid input; `Set` and `Delete` are
unguarded and succeed as on an open transaction; a `Get` that has to
consult the database, and iteration, crash on the nil back-pointer. -/
theorem terminal_tx_ops (db : Database) (tid : Nat) (key : String)
    (hclosed : (db.getTx tid).dbAttached = false)
    (hkey : key ≠ "") :
    Transaction.Commit db tid = (db, some .invalid) ∧
    Transaction.Rollback db tid = (db, some .invalid) ∧
    (∀ s, (Transaction.Set db tid key (some (.ok s))).2 = .ok) ∧
    (Transaction.Delete db tid key).2 = .ok ∧
    ((db.getTx tid).writes.lookup key = none →
      (db.getTx tid).reads.lookup key = none →
      Transaction.Get db tid key = (db, .fatalNil)) ∧
    Transaction.Scan db tid = (db, .crashed) := by
  refine ⟨?_, ?_, ?_, ?_, ?_, ?_⟩
  · unfold Transaction.Commit
    rw [if_pos (by simp [hclosed])]
  · unfold Transaction.Rollback
    rw [if_pos (by simp [hclosed])]
  · intro s
    unfold Transaction.Set
    rw [if_neg (string_length_ne_zero hkey)]
  · unfold Transaction.Delete
    rw [if_neg (string_length_ne_zero hkey)]
  · intro hw hr
    unfold Transaction.Get
    rw [if_neg (string_length_ne_zero hkey), hw, hr]
    rw [if_pos (by simp [hclosed])]
  · unfold Transaction.Scan Transaction.keys
    rw [if_pos (by simp [hclosed])]

/-- Witness for the amended C9 on the concrete closed transaction. -/
theorem terminal_tx_ops_witness :
    Transaction.Commit closedTxDb 0 = (closedTxDb, some .invalid) ∧
    Transaction.Rollback closedTxDb 0 = (closedTxDb, some .invalid) ∧
    Transaction.Get closedTxDb 0 "k" = (closedTxDb, .fatalNil) ∧
    Transaction.Scan closedTxDb 0 = (closedTxDb, .crashed) := by
  obtain ⟨h1, h2, _, _, h5, h6⟩ :=
    terminal_tx_ops closedTxDb 0 "k" (by decide) (by decide)
  exact ⟨h1, h2, h5 (by decide) (by decide), h6⟩

/-- C3: on a live handle and a non-empty key, `Snapshot.Get` returns the
payload of the history entry with the largest version at most the snapshot
version (`specFetch`), signalling "does not exist" for a tombstone or a
missing entry; `Transaction.Get` first serves its own buffered write
(payload, or "does not exist" for a buffered tombstone), then its cached
read, and only then the database history the same way. -/
theorem get_at_snapshot (db : Database) (sid tid : Nat) (key : String)
    (hkey : key ≠ "")
    (hsorted : ∀ e ∈ db.kvs, ValuesSorted e.2.values)
    (hsnap : (db.getSnap sid).dbAttached = true)
    (htx : (db.getTx tid).dbAttached = true) :
    (Snapshot.Get db sid key =
      match db.kvs.lookup key with
      | none => .errNotExist
      | some mv =>
        match specFetch mv.values (db.getSnap sid).snapshotVersion with
        | none => .errNotExist
        | some v => if v.IsDeleted then .errNotExist else .ok v.Data) ∧
    ((Transaction.Get db tid key).2 =
      match (db.getTx tid).writes.lookup key with
      | some none => .errNotExist
      | some (some d) => .ok d
      | none =>
        match (db.getTx tid).reads.lookup key with
        | some v => .ok v.Data
        | none =>
          match db.kvs.lookup key with
          | none => .errNotExist
          | some mv =>
            match specFetch mv.values (db.getTx tid).snapshotVersion with
            | none => .errNotExist
            | some v => if v.IsDeleted then .errNotExist else .ok v.Data) := by
  constructor
  · simp only [Snapshot.Get]
    rw [if_neg (string_length_ne_zero hkey), if_neg (by simp [hsnap])]
    rcases hl : db.kvs.lookup key with _ | mv
    · rfl
    · simp only []
      rw [fetch_eq_specFetch mv (hsorted _ (lookup_mem hl)) _]
      rcases specFetch mv.values (db.getSnap sid).snapshotVersion with _ | v
      · rfl
      · rfl
  · simp only [Transaction.Get]
    rw [if_neg (string_length_ne_zero hkey)]
    rcases hw : (db.getTx tid).writes.lookup key with _ | ⟨_ | d⟩
    · simp only []
      rcases hr : (db.getTx tid).reads.lookup key with _ | v
      · simp only []
        rw [if_neg (by simp [htx])]
        rcases hl : db.kvs.lookup key with _ | mv
        · rfl
        · simp only []
          rw [fetch_eq_specFetch mv (hsorted _ (lookup_mem hl)) _]
          rcases specFetch mv.values (db.getTx tid).snapshotVersion with _ | v
          · rfl
          · simp only []
            by_cases hd : v.IsDeleted <;> simp [hd]
      · rfl
    · rfl
    · rfl

/-- Witness for C3 in the scenario: T2's buffered write overrides its
cached read of `key1`; before that write the cached read (the initial
payload) is served; and a fresh snapshot of the post-commit database sees
T1's payload. -/
theorem get_at_snapshot_witness :
    (Transaction.Get Scen.sdb9 Scen.t2 "key1").2 = .ok "value2" ∧
    (Transaction.Get Scen.sdb8 Scen.t2 "key1").2 = .ok "initial" ∧
    Snapshot.Get Scen.sdb10 Scen.s10.2 "key1" = .ok "value1" := by
  have h9 := get_at_snapshot Scen.sdb9 0 Scen.t2 "key1" (by decide)
    (by decide) (by decide) (by decide)
  have h8 := get_at_snapshot Scen.sdb8 0 Scen.t2 "key1" (by decide)
    (by decide) (by decide) (by decide)
  have h10 := get_at_snapshot Scen.sdb10 Scen.s10.2 Scen.t2 "key1" (by decide)
    (by decide) (by decide) (by decide)
  refine ⟨?_, ?_, ?_⟩
  · rw [h9.2]
    decide
  · rw [h8.2]
    decide
  · rw [h10.1]
    decide

/-! ## Concrete scenario: a live snapshot versus compaction (C5) -/

namespace SnapLiveness

def q0 : Database × Nat := New.NewTransaction
def q1 : Database := (Transaction.Set q0.1 q0.2 "k" (some (.ok "v1"))).1
/-- `k = v1` at version 1. -/
def q2 : Database := (Transaction.Commit q1 q0.2).1
/-- A snapshot at version 1, held live (never discarded). -/
def qs : Database × Nat := q2.NewSnapshot
def q3 : Database := qs.1
def r0 : Database × Nat := q3.NewTransaction
def q4 : Database := (Transaction.Set r0.1 r0.2 "k" (some (.ok "v2"))).1
/-- `k` history [1, 2], version counter 2. -/
def q5 : Database := (Transaction.Commit q4 r0.2).1
def r1 : Database × Nat := q5.NewTransaction
def q6 : Database := (Transaction.Set r1.1 r1.2 "k" (some (.ok "v3"))).1
/-- The third commit compacts `k`'s history with `min_live_version = 2`. -/
def q7 : Database := (Transaction.Commit q6 r1.2).1

end SnapLiveness

/-- C5, the code evaluated at the failing input: `NewSnapshot` never adds
the created snapshot to `live_snapshots` (first conjunct: for every
database), so after the scenario the snapshot taken at version 1 is still
live (attached, never discarded) while `live_snapshots` is empty; the
`min_live_version` used by the third commit is 2 > 1; compaction therefore
drops the version-1 entry the snapshot needs, and the snapshot's read of
`k` changes from the payload it saw at creation to "does not exist". -/
theorem newSnapshot_liveness_bug :
    (∀ db : Database, db.NewSnapshot.1.liveSnaps = db.liveSnaps) ∧
    SnapLiveness.q7.liveSnaps = [] ∧
    (SnapLiveness.q7.getSnap SnapLiveness.qs.2).dbAttached = true ∧
    (SnapLiveness.q7.getSnap SnapLiveness.qs.2).snapshotVersion = 1 ∧
    SnapLiveness.q6.minVersionLocked = 2 ∧
    Snapshot.Get SnapLiveness.q3 SnapLiveness.qs.2 "k" = .ok "v1" ∧
    Snapshot.Get SnapLiveness.q7 SnapLiveness.qs.2 "k" = .errNotExist := by
  refine ⟨fun db => rfl, by decide, by decide, by decide, by decide,
    by decide, by decide⟩

/-! ## Concrete scenario: iteration over a tombstoned key (C7) -/

namespace ScanTomb

def m0 : Database × Nat := New.NewTransaction
def m1 : Database := (Transaction.Set m0.1 m0.2 "a" (some (.ok "x"))).1
def m2 : Database := (Transaction.Set m1 m0.2 "b" (some (.ok "y"))).1
/-- `a = x`, `b = y`, both at version 1. -/
def m3 : Database := (Transaction.Commit m2 m0.2).1
def m4 : Database × Nat := m3.NewTransaction
def m5 : Database := (Transaction.Delete m4.1 m4.2 "b").1
/-- `b` is tombstoned at version 2. -/
def m6 : Database := (Transaction.Commit m5 m4.2).1
def ms : Database × Nat := m6.NewSnapshot
def mt : Database × Nat := m6.NewTransaction

end ScanTomb

/-- C7, the code evaluated at the failing input: scanning a snapshot of a
database whose key `b` is tombstoned at the snapshot version yields `a`,
then writes the "does not exist" error into the caller's error slot and
stops — the tombstoned key is not skipped silently (snapshot `Scan` has no
not-exist filter).  Scanning a fresh transaction over the same database
filters the same error silently and finishes with an empty error slot, as
the claim describes. -/
theorem snapshot_scan_tombstone_error :
    Snapshot.Scan ScanTomb.ms.1 ScanTomb.ms.2 =
      .finished [("a", "x")] (some .errNotExist) ∧
    (Transaction.Scan ScanTomb.mt.1 ScanTomb.mt.2).2 =
      .finished [("a", "x")] none := by
  exact ⟨by decide, by decide⟩

/-! ## Compaction semantics (C6) -/

/-- C6 counterexample.  With history versions [1, 3, 5] (all live) and
`min_version = 4`, `Compact` keeps the version-3 entry, which the claim's
retention rule excludes (it is not the most recent entry, its version is
below `min_version`, and it is not a single surviving entry), so the
result differs from the claimed {5}.  And with history
[live@1, tombstone@5] and `min_version = 10` the only remaining entry is a
tombstone below `min_version`, yet `Compact` returns that single-tombstone
history instead of "empty". -/
theorem compact_retention_counterexample :
    Compact (some ⟨[⟨1, "a"⟩, ⟨3, "b"⟩, ⟨5, "c"⟩]⟩) 4 =
      some ⟨[⟨3, "b"⟩, ⟨5, "c"⟩]⟩ ∧
    some (⟨[⟨3, "b"⟩, ⟨5, "c"⟩]⟩ : MultiValue) ≠
      some (⟨[⟨5, "c"⟩]⟩ : MultiValue) ∧
    ¬ (4 ≤ (⟨3, "b"⟩ : Value).Version) ∧
    Compact (some ⟨[⟨1, "a"⟩, ⟨-5, ""⟩]⟩) 10 = some ⟨[⟨-5, ""⟩]⟩ ∧
    (⟨-5, ""⟩ : Value).IsDeleted = true ∧ (⟨-5, ""⟩ : Value).Version < 10 ∧
    some (⟨[⟨-5, ""⟩]⟩ : MultiValue) ≠ (none : Option MultiValue) := by
  decide

/-- C6 (amended): on a sorted non-empty history, `Compact(min_version)`
with a multi-entry history retains exactly the entries whose version is at
least that of the newest entry with version ≤ `min_version` (the
`specFetch` pivot), returning the input unchanged when every entry is
above `min_version`; a multi-entry history is never removed outright, even
when only a tombstone remains.  "Empty" (removal) is signalled exactly for
a single-entry history whose entry is a tombstone with version below
`min_version`; a live single entry is kept even below `min_version`. -/
theorem compact_semantics (mv : MultiValue) (hs : ValuesSorted mv.values)
    (minV : Int) :
    (mv.values.length = 1 →
      Compact (some mv) minV =
        if (mv.values.getD 0 default).IsDeleted = true ∧
            (mv.values.getD 0 default).Version < minV then none
        else some mv) ∧
    (2 ≤ mv.values.length →
      Compact (some mv) minV =
        match specFetch mv.values minV with
        | none => some mv
        | some pivot =>
          some ⟨mv.values.filter
            (fun v => !decide (v.Version < pivot.Version))⟩) := by
  constructor
  · intro h1
    simp only [Compact]
    rw [if_neg (by omega), if_pos h1]
    by_cases hd : (mv.values.getD 0 default).IsDeleted = true ∧
        (mv.values.getD 0 default).Version < minV
    · rw [if_pos (by
        simp only [Bool.and_eq_true, decide_eq_true_eq]
        exact hd), if_pos hd]
    · rw [if_neg (by
        simp only [Bool.and_eq_true, decide_eq_true_eq]
        exact hd), if_neg hd]
  · intro h2
    exact compact_char mv hs h2 minV

/-- Witness for the amended C6: the pivot-filter equation at the concrete
[1, 3, 5] history with `min_version = 4`, and retention of a live single
entry below `min_version`. -/
theorem compact_semantics_witness :
    Compact (some ⟨[⟨1, "a"⟩, ⟨3, "b"⟩, ⟨5, "c"⟩]⟩) 4 =
      some ⟨[⟨3, "b"⟩, ⟨5, "c"⟩]⟩ ∧
    Compact (some ⟨[⟨5, "x"⟩]⟩) 10 = some ⟨[⟨5, "x"⟩]⟩ := by
  have h1 := compact_semantics ⟨[⟨1, "a"⟩, ⟨3, "b"⟩, ⟨5, "c"⟩]⟩ (by decide) 4
  have h2 := compact_semantics ⟨[⟨5, "x"⟩]⟩ (by decide) 10
  constructor
  · rw [h1.2 (by decide)]
    decide
  · rw [h2.1 (by decide)]
    decide

/-! ## Committing a buffered delete of an absent key (C8) -/

namespace DelAbsent

def f0 : Database × Nat := New.NewTransaction
def f1 : Database := (Transaction.Delete f0.1 f0.2 "k").1
def fc : Database × Option CommitErr := Transaction.Commit f1 f0.2

end DelAbsent

/-- C8 counterexample: buffering `delete("k")` for a key that does not
exist at commit time and committing succeeds, but the commit STORES a new
Version History under `k` — a single tombstone at the new commit
version 1 — so the key-to-History mapping is not left unchanged at `k`. -/
theorem delete_absent_creates_history :
    DelAbsent.fc.2 = none ∧
    DelAbsent.f1.kvs.lookup "k" = none ∧
    DelAbsent.fc.1.kvs.lookup "k" = some ⟨[⟨-1, ""⟩]⟩ ∧
    DelAbsent.fc.1.kvs.lookup "k" ≠ none := by
  decide

/-- C8 (amended): when a transaction with a buffered delete for a key K
that is absent at commit time commits successfully, the mapping is NOT
left unchanged at K: the commit stores a fresh single-entry History under
K holding a tombstone at the new commit version (reads still see K as
missing — the visible no-op holds — but a History for K is created). -/
theorem delete_absent_commit (db db2 : Database) (tid : Nat) (K : String)
    (ha : (db.getTx tid).dbAttached = true)
    (hc : (db.getTx tid).committed = false)
    (hmax : 0 ≤ db.maxCommitVersion)
    (hK : (db.getTx tid).writes.lookup K = some none)
    (hnd : ((db.getTx tid).writes.map (·.1)).Nodup)
    (habsent : db.kvs.lookup K = none)
    (hok : commit db tid = (db2, none)) :
    db2.kvs.lookup K = some ⟨[⟨-(db.maxCommitVersion + 1), ""⟩]⟩ ∧
    db2.maxCommitVersion = db.maxCommitVersion + 1 := by
  have hw : (db.getTx tid).writes ≠ [] := by
    intro h
    rw [h] at hK
    simp [List.lookup] at hK
  obtain ⟨_, _, hdb⟩ := commit_ok_inversion db db2 tid ha hc hw hok
  subst hdb
  refine ⟨?_, rfl⟩
  show (applyWrites db.kvs (db.maxCommitVersion + 1) db.minVersionLocked
      (db.getTx tid).writes).lookup K = _
  rw [applyWrites_lookup _ _ _ _ K none hK hnd, habsent]
  simp only [applyOne, NewMultiValue, writeValue, NewValue, Value.Delete]
  rw [if_pos (by omega)]

/-- Witness for the amended C8 at the concrete delete-of-absent-key run. -/
theorem delete_absent_commit_witness :
    (commit DelAbsent.f1 DelAbsent.f0.2).1.kvs.lookup "k" =
      some ⟨[⟨-1, ""⟩]⟩ :=
  (delete_absent_commit DelAbsent.f1 (commit DelAbsent.f1 DelAbsent.f0.2).1
    DelAbsent.f0.2 "k" (by decide) (by decide) (by decide) (by decide)
    (by decide) (by decide) (by decide)).1

/-! ## The SSI rw-dependency check (C2) -/

theorem isWW_not_isSSI (e : CommitErr) (h : e.isWW = true) :
    e.isSSI = false := by
  cases e <;> simp [CommitErr.isWW, CommitErr.isSSI] at h ⊢

theorem lookup_isSome_elim {κ α : Type} [BEq κ] [LawfulBEq κ]
    {m : List (κ × α)} {k : κ} (h : (m.lookup k).isSome = true) :
    ∃ e ∈ m, e.1 = k := by
  rcases hl : m.lookup k with _ | v
  · rw [hl] at h
    simp at h
  · exact ⟨(k, v), lookup_mem hl, rfl⟩

theorem overlappingKeys_ne_nil_of {rds : List (String × Value)}
    {wrs : List (String × Option String)} {k : String}
    (h1 : (rds.lookup k).isSome = true) (h2 : (wrs.lookup k).isSome = true) :
    overlappingKeys rds wrs ≠ [] := by
  intro hnil
  obtain ⟨e, he, hek⟩ := lookup_isSome_elim h1
  have h3 := (overlappingKeys_eq_nil_iff rds wrs).mp hnil e he
  rw [hek] at h3
  rw [h3] at h2
  simp at h2

/-- C2: for a write-transaction T whose commit reaches the SSI check (live
handle, not yet committed, non-empty write buffer): if some concurrent
peer P is already committed with a non-empty write set and a key of
reads(T) is in writes(P) or a key of reads(P) is in writes(T), the commit
aborts with an rw-dependency (SSI) error and leaves the database
unchanged; and when every committed writing peer is overlap-free —
uncommitted peers and committed read-only peers are skipped no matter what
their key sets are — the commit never returns an SSI error. -/
theorem ssi_rw_dependency (db : Database) (tid : Nat)
    (ha : (db.getTx tid).dbAttached = true)
    (hc : (db.getTx tid).committed = false)
    (hw : (db.getTx tid).writes ≠ []) :
    ((∃ p ∈ (db.concurrentMap.lookup tid).getD [],
        (db.getTx p).committed = true ∧ (db.getTx p).writes ≠ [] ∧
        ((∃ k, (((db.getTx tid).reads.lookup k).isSome = true) ∧
            (((db.getTx p).writes.lookup k).isSome = true)) ∨
         (∃ k, (((db.getTx p).reads.lookup k).isSome = true) ∧
            (((db.getTx tid).writes.lookup k).isSome = true)))) →
      ∃ e, commit db tid = (db, some e) ∧ e.isSSI = true) ∧
    ((∀ p ∈ (db.concurrentMap.lookup tid).getD [],
        (db.getTx p).committed = true → (db.getTx p).writes ≠ [] →
        overlappingKeys (db.getTx tid).reads (db.getTx p).writes = [] ∧
        overlappingKeys (db.getTx p).reads (db.getTx tid).writes = []) →
      ∀ e, (commit db tid).2 = some e → e.isSSI = false) := by
  constructor
  · rintro ⟨p, hp, hpc, hpw, hover⟩
    have hssi : ssiCheck db (db.getTx tid)
        ((db.concurrentMap.lookup tid).getD []) ≠ none := by
      intro hnone
      have hclean := (ssiCheck_eq_none_iff db (db.getTx tid) _).mp hnone
        p hp hpc hpw
      rcases hover with ⟨k, hr, hwp⟩ | ⟨k, hr, hwp⟩
      · exact overlappingKeys_ne_nil_of hr hwp hclean.1
      · exact overlappingKeys_ne_nil_of hr hwp hclean.2
    rcases he : ssiCheck db (db.getTx tid)
        ((db.concurrentMap.lookup tid).getD []) with _ | e
    · exact absurd he hssi
    · refine ⟨e, ?_, ssiCheck_some_isSSI db (db.getTx tid) _ e he⟩
      rw [commit_checks db tid ha hc hw, he]
  · intro hclean e hres
    have hssi : ssiCheck db (db.getTx tid)
        ((db.concurrentMap.lookup tid).getD []) = none :=
      (ssiCheck_eq_none_iff db (db.getTx tid) _).mpr hclean
    rw [commit_checks db tid ha hc hw, hssi] at hres
    rcases hww : wwCheck db.kvs (db.getTx tid).snapshotVersion
        (db.getTx tid).writes with _ | e2
    · rw [hww] at hres
      simp at hres
    · rw [hww] at hres
      simp only at hres
      injection hres with hres2
      subst hres2
      exact isWW_not_isSSI e2 (wwCheck_some_isWW db.kvs _ _ e2 hww)

/-- Witness for C2 at the scenario's second commit: T2 read `key1`, its
committed concurrent peer T1 wrote `key1`, and T2's commit aborts with an
SSI error leaving the database unchanged. -/
theorem ssi_rw_dependency_witness :
    ∃ e, commit Scen.db10 Scen.t2 = (Scen.db10, some e) ∧ e.isSSI = true :=
  (ssi_rw_dependency Scen.db10 Scen.t2 (by decide) (by decide)
      (by decide)).1
    ⟨Scen.t1, by decide, by decide, by decide,
      Or.inl ⟨"key1", by decide, by decide⟩⟩

/-! ## Write-write conflicts and first-committer-wins (C1) -/

theorem getD_set_ne {α : Type} (l : List α) (i j : Nat) (a d : α)
    (h : i ≠ j) : (l.set i a).getD j d = l.getD j d := by
  unfold List.getD
  rw [List.get?_set_ne _ _ h]

/-- C1 counterexample: in the repository's own write-write-conflict
scenario (T1 and T2 both `Get` then `Set` `key1`), both transactions are
concurrent writers of `key1`, the first commit succeeds and the later
commit aborts — but with the Step-2 rw-dependency (SSI) error, not a
ww-conflict error: the SSI check runs before the Step-3 ww comparison and
fires first whenever the conflicting writers also read the key. -/
theorem ww_abort_is_ssi_counterexample :
    ((Scen.db9.getTx Scen.t1).writes.lookup "key1").isSome = true ∧
    ((Scen.db9.getTx Scen.t2).writes.lookup "key1").isSome = true ∧
    Scen.t1 ∈ (Scen.db9.concurrentMap.lookup Scen.t2).getD [] ∧
    Scen.c1.2 = none ∧
    Scen.c2.2 = some (.ssiReadsUpdated ["key1"]) ∧
    Scen.c2.2.map CommitErr.isWW ≠ some true := by
  decide

/-- C1 (amended): for two concurrent write-transactions T1, T2 both
writing key K on a well-formed database, at most one commit succeeds:
after T1's commit succeeds, T2's commit always aborts — and whenever the
Step-2 SSI check passes (no committed writing peer of T2 overlaps a read
set in either direction, e.g. when neither transaction read anything),
the abort is specifically a Step-3 ww-conflict error, decided by
comparing the key's newest History version (`Fetch` at +infinity) against
the version visible at T2's snapshot (`Fetch` at its snapshot version);
when the SSI check fires instead, the abort is an rw-dependency error. -/
theorem ww_first_committer_wins (db db2 : Database) (t1 t2 : Nat)
    (K : String)
    (hne : t1 ≠ t2)
    (ha1 : (db.getTx t1).dbAttached = true)
    (ha2 : (db.getTx t2).dbAttached = true)
    (hc2 : (db.getTx t2).committed = false)
    (hK1 : ((db.getTx t1).writes.lookup K).isSome = true)
    (hK2 : ((db.getTx t2).writes.lookup K).isSome = true)
    (hpeer : t1 ∈ (db.concurrentMap.lookup t2).getD [])
    (hsorted : ∀ e ∈ db.kvs, ValuesSorted e.2.values)
    (hhne : ∀ e ∈ db.kvs, e.2.values ≠ [])
    (hbound : ∀ e ∈ db.kvs, ∀ v ∈ e.2.values,
      v.Version ≤ db.maxCommitVersion)
    (hmax0 : 0 ≤ db.maxCommitVersion)
    (hcap : db.maxCommitVersion < maxInt64)
    (hsv2 : (db.getTx t2).snapshotVersion ≤ db.maxCommitVersion)
    (hnd1 : ((db.getTx t1).writes.map (·.1)).Nodup)
    (h1 : Transaction.Commit db t1 = (db2, none)) :
    (∃ e, (Transaction.Commit db2 t2).2 = some e) ∧
    ((∀ p ∈ (db2.concurrentMap.lookup t2).getD [],
        (db2.getTx p).committed = true → (db2.getTx p).writes ≠ [] →
        overlappingKeys (db2.getTx t2).reads (db2.getTx p).writes = [] ∧
        overlappingKeys (db2.getTx p).reads (db2.getTx t2).writes = []) →
      ∃ e, (Transaction.Commit db2 t2).2 = some e ∧ e.isWW = true) := by
  -- Step A: unfold T1's Commit wrapper.
  unfold Transaction.Commit at h1
  rw [if_neg (by simp [ha1])] at h1
  have hr2 : (commit db t1).2 = none := congrArg Prod.snd h1
  have hdb2 : db2 = ((commit db t1).1).closeTransaction t1 :=
    (congrArg Prod.fst h1).symm
  -- Step B: T1 was not already committed, and had writes.
  have hc1 : (db.getTx t1).committed = false := by
    rcases h : (db.getTx t1).committed with _ | _
    · rfl
    · rw [commit_already_committed db t1 ha1 h] at hr2
      simp at hr2
  have hw1 : (db.getTx t1).writes ≠ [] := by
    intro h
    rw [h] at hK1
    simp [List.lookup] at hK1
  -- Step C: invert the successful commit.
  have hpair : commit db t1 = ((commit db t1).1, none) := Prod.ext rfl hr2
  obtain ⟨hssi1, hww1, hdb1⟩ :=
    commit_ok_inversion db (commit db t1).1 t1 ha1 hc1 hw1 hpair
  rw [hdb1] at hdb2
  -- Step D: the fields of the post-commit database T2 commits on.
  have hkvs2 : db2.kvs = applyWrites db.kvs (db.maxCommitVersion + 1)
      db.minVersionLocked (db.getTx t1).writes := by
    rw [hdb2]
    rfl
  have hgtx2 : db2.getTx t2 = db.getTx t2 := by
    rw [hdb2]
    unfold Database.closeTransaction Database.getTx
    simp only []
    rw [getD_set_ne _ _ _ _ _ hne, getD_set_ne _ _ _ _ _ hne]
  -- Step E: the shape of K's history after T1's apply step.
  obtain ⟨w1, hw1v⟩ := Option.isSome_iff_exists.mp hK1
  have hlook : db2.kvs.lookup K =
      applyOne (db.kvs.lookup K) w1 (db.maxCommitVersion + 1)
        db.minVersionLocked := by
    rw [hkvs2]
    exact applyWrites_lookup _ _ _ _ K w1 hw1v hnd1
  obtain ⟨H, hH, hHne, hHsort, hHlast, hHbound⟩ :=
    applyOne_shape (db.kvs.lookup K) w1 (db.maxCommitVersion + 1)
      db.minVersionLocked db.maxCommitVersion (by omega) (by omega)
      (fun m hm => ⟨hsorted _ (lookup_mem hm), hhne _ (lookup_mem hm),
        hbound _ (lookup_mem hm)⟩)
  have hlook2 : db2.kvs.lookup K = some H := by rw [hlook, hH]
  -- Step F: K cannot pass T2's ww check.
  have hwver : (writeValue (db.maxCommitVersion + 1) w1).Version =
      db.maxCommitVersion + 1 := writeValue_version _ (by omega) w1
  have hfetchTop : H.Fetch maxInt64 =
      some (writeValue (db.maxCommitVersion + 1) w1) := by
    rw [fetch_eq_specFetch H hHsort]
    rw [specFetch_of_all_le
      (fun v hv => le_trans (hHbound v hv) (by omega))]
    exact hHlast
  have hpass : wwPass db2.kvs (db.getTx t2).snapshotVersion K = false := by
    unfold wwPass
    rw [hlook2]
    simp only []
    rw [hfetchTop]
    rcases hfl : H.Fetch (db.getTx t2).snapshotVersion with _ | iv
    · rfl
    · simp only []
      have hivle : iv.Version ≤ (db.getTx t2).snapshotVersion := by
        rw [fetch_eq_specFetch H hHsort] at hfl
        exact specFetch_version_le hfl
      rw [beq_eq_false_iff_ne, hwver]
      omega
  -- Step G: T2's ww check cannot succeed.
  obtain ⟨w2, hw2v⟩ := Option.isSome_iff_exists.mp hK2
  have hwwne : wwCheck db2.kvs (db2.getTx t2).snapshotVersion
      (db2.getTx t2).writes ≠ none := by
    rw [hgtx2]
    intro hnone
    have hall := (wwCheck_eq_none_iff db2.kvs _ _).mp hnone (K, w2)
      (lookup_mem hw2v)
    exact absurd hall (by rw [hpass]; simp)
  -- Step H: assemble T2's commit.
  have ha2' : (db2.getTx t2).dbAttached = true := by
    rw [hgtx2]
    exact ha2
  have hc2' : (db2.getTx t2).committed = false := by
    rw [hgtx2]
    exact hc2
  have hw2' : (db2.getTx t2).writes ≠ [] := by
    rw [hgtx2]
    intro h
    rw [h] at hw2v
    simp [List.lookup] at hw2v
  have hwrap : (Transaction.Commit db2 t2).2 = (commit db2 t2).2 := by
    unfold Transaction.Commit
    rw [if_neg (by simp [ha2'])]
  have hred := commit_checks db2 t2 ha2' hc2' hw2'
  constructor
  · rcases hssi2 : ssiCheck db2 (db2.getTx t2)
        ((db2.concurrentMap.lookup t2).getD []) with _ | e
    · rw [hssi2] at hred
      rcases hww2 : wwCheck db2.kvs (db2.getTx t2).snapshotVersion
          (db2.getTx t2).writes with _ | e2
      · exact absurd hww2 hwwne
      · rw [hww2] at hred
        exact ⟨e2, by rw [hwrap, hred]⟩
    · rw [hssi2] at hred
      exact ⟨e, by rw [hwrap, hred]⟩
  · intro hclean
    have hssi2 : ssiCheck db2 (db2.getTx t2)
        ((db2.concurrentMap.lookup t2).getD []) = none :=
      (ssiCheck_eq_none_iff db2 (db2.getTx t2) _).mpr hclean
    rw [hssi2] at hred
    rcases hww2 : wwCheck db2.kvs (db2.getTx t2).snapshotVersion
        (db2.getTx t2).writes with _ | e2
    · exact absurd hww2 hwwne
    · rw [hww2] at hred
      exact ⟨e2, by rw [hwrap, hred], wwCheck_some_isWW _ _ _ e2 hww2⟩

/-- Witness for the amended C1 in the no-reads scenario: T1 and T2 both
blindly `Set` `key1`; T1's commit succeeds and T2's commit aborts with a
ww-conflict error. -/
theorem ww_first_committer_wins_witness :
    ∃ e, (Transaction.Commit Scen.e10 Scen.t2).2 = some e ∧
      e.isWW = true :=
  (ww_first_committer_wins Scen.e9 Scen.e10 Scen.t1 Scen.t2 "key1"
    (by decide) (by decide) (by decide) (by decide) (by decide) (by decide)
    (by decide) (by decide) (by decide) (by decide) (by decide) (by decide)
    (by decide) (by decide) (by decide)).2 (by decide)

end Kvmemdb
